import Mathlib

/-!
Verification of the hierarchical stream segmenter in
`pathmanage/huge_file_handler.py` (`split`,
`save_to_file_and_switch_output_file`, `get_output_file_path`) against its
natural-language specification.

The file system is modelled as the list of paths of the files that exist;
writing a file appends its path.  File contents are modelled as the list of
lines passed to `'\n'.join` (the run-log file's text is not modelled, only
its existence, which is what the collision checks observe).  Python string
operations used by the source (`str.strip`, `str.startswith`, `str.split`
with and without a separator argument, `str.join`) are modelled on the
character list underlying a `String` so that every definition evaluates
inside the kernel.
-/

/-! ## Python string primitives -/

/-- Characters treated as whitespace by `str.strip()` / `str.split()`
(space, tab, carriage return, newline — the characters that occur in
line-oriented text). -/
def py_is_space (c : Char) : Bool :=
  c = ' ' || c = '\t' || c = '\r' || c = '\n'

/-- `str.strip()`: remove leading and trailing whitespace. -/
def py_strip (s : String) : String :=
  String.mk (((s.data.dropWhile py_is_space).reverse.dropWhile py_is_space).reverse)

/-- `str.startswith(pre)`. -/
def py_startswith (pre s : String) : Bool :=
  pre.data.isPrefixOf s.data

/-- Helper for `py_split_whitespace`: accumulate the current word (in
reverse) while scanning the character list. -/
def py_split_ws_aux : List Char → List Char → List (List Char)
  | [], acc => if acc = [] then [] else [acc.reverse]
  | c :: cs, acc =>
    if py_is_space c then
      if acc = [] then py_split_ws_aux cs []
      else acc.reverse :: py_split_ws_aux cs []
    else py_split_ws_aux cs (c :: acc)

/-- `str.split()` with no argument: split on runs of whitespace, never
producing empty parts. -/
def py_split_whitespace (s : String) : List String :=
  (py_split_ws_aux s.data []).map String.mk

/-- Find the first occurrence of `sep` in a character list; return the
characters before it and the characters after it. -/
def py_find_sep (sep : List Char) : List Char → Option (List Char × List Char)
  | [] => if sep.isPrefixOf ([] : List Char) then some ([], []) else none
  | c :: cs =>
    if sep.isPrefixOf (c :: cs) then some ([], (c :: cs).drop sep.length)
    else
      match py_find_sep sep cs with
      | none => none
      | some (before, after) => some (c :: before, after)

/-- Fuel-indexed worker for `py_split_on`; the fuel bounds the number of
separator occurrences, `length + 1` always suffices. -/
def py_split_on_aux (sep : List Char) : Nat → List Char → List (List Char)
  | 0, cs => [cs]
  | fuel + 1, cs =>
    match py_find_sep sep cs with
    | none => [cs]
    | some (before, after) => before :: py_split_on_aux sep fuel after

/-- `str.split(sep)` for a non-empty separator `sep`: split at each
non-overlapping occurrence of `sep`, scanning left to right.  (For an
empty separator Python raises `ValueError`; the caller in
`modified_items_of` checks for that case before calling this.) -/
def py_split_on (sep s : String) : List String :=
  (py_split_on_aux sep.data (s.data.length + 1) s.data).map String.mk

/-- `''.join(item.split(exp_pref)[1:])` — the prefix-removal expression of
the source's list comprehension (line 244): it deletes every occurrence of
the `exp_pref` substring at or after the first one, not just a single
leading copy. -/
def remove_pref_occurrences (exp_pref item : String) : String :=
  String.join ((py_split_on exp_pref item).drop 1)

/-! ## Errors and run state -/

/-- The exceptions the source can raise while splitting.
`fileExists` is `FileExistsError(path)` from `get_output_file_path`;
`assertionFailed` is the bare `assert len(parts) == member_num`;
`valueError` is the `ValueError` whose message interpolates the observed
whitespace-split items and the expected prefixes;
`emptySeparator` is the `ValueError` Python raises from `str.split('')`
when an expected prefix is the empty string. -/
inductive SplitError where
  | fileExists (path : String)
  | assertionFailed
  | valueError (observed_items : List String) (expected_prefs : List String)
  | emptySeparator
deriving DecidableEq, Repr

/-- `get_output_file_path(output_file_prefix, output_file_id)`: build
`prefix_{id}.txt` and fail with `FileExistsError` when a file with that
path already exists (`os.path.isfile`). -/
def outputFileName (out_pref output_file_id : String) : String :=
  out_pref ++ "_" ++ output_file_id ++ ".txt"

def get_output_file_path (fs : List String) (out_pref output_file_id : String) :
    Except SplitError String :=
  let output_file_path := outputFileName out_pref output_file_id
  if output_file_path ∈ fs then .error (.fileExists output_file_path)
  else .ok output_file_path

/-- The mutable state of `split`'s loop over input lines, together with
the modelled file system.

`current_id` models the integer that the source recovers from
`current_path` with `get_output_file_id_from_path` (the path is always
`prefix_{id}.txt`, produced by `get_output_file_path`, and the parse
`path.split('_')[-1].split('.')[0]` is the left inverse of that naming
scheme); the model carries the integer alongside the path it is embedded
in. -/
structure SplitState where
  fs : List String
  files : List (String × List String)
  contents : List String
  current_path : String
  current_id : Nat
  first_level_id : String
  second_level_item_num : Nat
  total_line_count : Nat
  total_file_count : Nat
deriving DecidableEq, Repr

/-- `save_to_file_and_switch_output_file` (with the always-empty
`comment_line` omitted): write `contents` to `current_path`
(`open(..., 'w')` — unconditional), then compute and existence-check the
path for the next sequence number; on collision the `FileExistsError`
escapes after the write has happened. -/
def save_to_file_and_switch_output_file (out_pref : String) (s : SplitState) :
    SplitState × Option SplitError :=
  let written : SplitState :=
    { s with fs := s.fs ++ [s.current_path],
             files := s.files ++ [(s.current_path, s.contents)] }
  let next_id := s.current_id + 1
  match get_output_file_path written.fs out_pref (toString next_id) with
  | .error e => (written, some e)
  | .ok next_path =>
      ({ written with contents := [], current_path := next_path,
                      current_id := next_id }, none)

/-- The comprehension
`[''.join(item.split(exp_pref)[1:]) for exp_pref, item in zip(item_prefixes, parts) if item.startswith(exp_pref)]`:
pairs are consumed positionally (`zip` stops at the shorter list), pairs
whose item does not start with its expected prefix are filtered out, and
an empty expected prefix makes `item.split('')` raise. -/
def modified_items_of : List String → List String → Except SplitError (List String)
  | exp_pref :: prefs, item :: items =>
    if py_startswith exp_pref item then
      if exp_pref = "" then .error .emptySeparator
      else
        match modified_items_of prefs items with
        | .error e => .error e
        | .ok rest => .ok (remove_pref_occurrences exp_pref item :: rest)
    else modified_items_of prefs items
  | _, _ => .ok []

/-- The data-line branch of `split` when `member_num > 0` (source lines
239–256): whitespace-split the line, `assert` the part count, build the
modified items, raise `ValueError` (reporting the observed parts and the
expected prefixes) when the filtered list is too short, and re-join with
the separator. -/
def transform_data_line (item_prefs : List String) (item_separator line : String) :
    Except SplitError String :=
  let member_num := item_prefs.length
  let parts := py_split_whitespace line
  if parts.length = member_num then
    match modified_items_of item_prefs parts with
    | .error e => .error e
    | .ok modified_items =>
        if modified_items.length = member_num then
          .ok (String.intercalate item_separator modified_items)
        else .error (.valueError parts item_prefs)
  else .error .assertionFailed

/-- One iteration of `split`'s `for l in input_fh` loop: strip the line,
skip it when blank, dispatch on the `'>>'` / `'>'` sigils, and append the
(possibly transformed) line to `contents` while counting it. -/
def process_line (out_pref : String) (max_item_num : Int) (item_prefs : List String)
    (item_separator : String) (s : SplitState) (l : String) :
    SplitState × Option SplitError :=
  let line := py_strip l
  if line = "" then (s, none)
  else
    let step : SplitState × Option SplitError × String :=
      if py_startswith ">>" line then
        if s.first_level_id ≠ "" then
          match save_to_file_and_switch_output_file out_pref s with
          | (s1, some e) => (s1, some e, line)
          | (s1, none) =>
              ({ s1 with total_file_count := s1.total_file_count + 1,
                         second_level_item_num := 0,
                         first_level_id := line }, none, line)
        else ({ s with first_level_id := line }, none, line)
      else if py_startswith ">" line then
        if max_item_num ≤ (s.second_level_item_num : Int) then
          match save_to_file_and_switch_output_file out_pref s with
          | (s1, some e) => (s1, some e, line)
          | (s1, none) =>
              ({ s1 with contents := [s1.first_level_id],
                         total_file_count := s1.total_file_count + 1,
                         second_level_item_num := 1 }, none, line)
        else ({ s with second_level_item_num := s.second_level_item_num + 1 },
              none, line)
      else
        if 0 < item_prefs.length then
          match transform_data_line item_prefs item_separator line with
          | .error e => (s, some e, line)
          | .ok line2 => (s, none, line2)
        else (s, none, line)
    match step with
    | (s1, some e, _) => (s1, some e)
    | (s1, none, line2) =>
        ({ s1 with contents := s1.contents ++ [line2],
                   total_line_count := s1.total_line_count + 1 }, none)

/-- The whole input loop; a raised exception aborts the remaining lines. -/
def process_lines (out_pref : String) (max_item_num : Int) (item_prefs : List String)
    (item_separator : String) : SplitState → List String →
    SplitState × Option SplitError
  | s, [] => (s, none)
  | s, l :: ls =>
    match process_line out_pref max_item_num item_prefs item_separator s l with
    | (s1, some e) => (s1, some e)
    | (s1, none) => process_lines out_pref max_item_num item_prefs item_separator s1 ls

instance {ε α : Type} [DecidableEq ε] [DecidableEq α] : DecidableEq (Except ε α) :=
  fun x y =>
    match x, y with
    | .ok a, .ok b =>
        if h : a = b then isTrue (by rw [h]) else isFalse (fun hc => h (by cases hc; rfl))
    | .error e, .error f =>
        if h : e = f then isTrue (by rw [h]) else isFalse (fun hc => h (by cases hc; rfl))
    | .ok _, .error _ => isFalse (fun hc => by cases hc)
    | .error _, .ok _ => isFalse (fun hc => by cases hc)

/-- What a run of `split` leaves behind: the files written (path and line
list, in write order), the resulting file system, and either the returned
`(total_line_count, total_file_count)` pair or the exception that escaped. -/
structure SplitResult where
  files : List (String × List String)
  fs : List String
  result : Except SplitError (Nat × Nat)
deriving DecidableEq, Repr

/-- The tail of `split` after the input loop: on a raised exception the
files and file system written so far are returned with the error;
otherwise the remaining `contents` are flushed unconditionally
(source lines 261–269) and the final counters are returned. -/
def finish_run (op : String) (pr : SplitState × Option SplitError) : SplitResult :=
  match pr with
  | (s1, some e) => { files := s1.files, fs := s1.fs, result := .error e }
  | (s1, none) =>
    match save_to_file_and_switch_output_file op s1 with
    | (s2, some e) => { files := s2.files, fs := s2.fs, result := .error e }
    | (s2, none) =>
      { files := s2.files, fs := s2.fs,
        result := .ok (s2.total_line_count, s2.total_file_count + 1) }

/-- `split` after the log file exists: existence-check the path for
sequence number 1, then run the loop from the initial state and finish. -/
def split_with_log (fs0 input_lines : List String) (op : String) (m : Int)
    (prs : List String) (sep : String) (log_p : String) : SplitResult :=
  match get_output_file_path (fs0 ++ [log_p]) op (toString (1 : Nat)) with
  | .error e => { files := [], fs := fs0 ++ [log_p], result := .error e }
  | .ok path1 =>
    finish_run op (process_lines op m prs sep
      { fs := fs0 ++ [log_p], files := [], contents := [],
        current_path := path1, current_id := 1, first_level_id := "",
        second_level_item_num := 0, total_line_count := 0,
        total_file_count := 0 } input_lines)

/-- `split(input_file, output_file_prefix, max_item_num, item_prefixes,
item_separator)` on a file system `fs0` and an input whose lines are
`input_lines`: existence-check and create the `prefix_log.txt` run-log
file (source line 171, `open(log_file, 'a')`), existence-check the path
for sequence number 1, run the line loop, and unconditionally flush the
remaining `contents` as a final segment. -/
def split (fs0 input_lines : List String) (op : String) (m : Int)
    (prs : List String) (sep : String) : SplitResult :=
  match get_output_file_path fs0 op "log" with
  | .error e => { files := [], fs := fs0, result := .error e }
  | .ok log_p => split_with_log fs0 input_lines op m prs sep log_p

/-! ## Derived notions used by the specification's properties -/

/-- The non-blank input lines after stripping, in input order. -/
def clean_lines (input_lines : List String) : List String :=
  (input_lines.map py_strip).filter (fun l => l ≠ "")

/-- An item-marker line: starts with `>` but not with `>>`. -/
def is_item_marker (l : String) : Bool :=
  py_startswith ">" l && !py_startswith ">>" l

/-- Number of item-marker lines in a segment. -/
def count_item_markers (seg : List String) : Nat :=
  (seg.filter (fun l => is_item_marker l)).length

/-- The path `get_output_file_path` will existence-check on the next flush
from state `s`: the one for the next sequence number. -/
def next_path (out_pref : String) (s : SplitState) : String :=
  outputFileName out_pref (toString (s.current_id + 1))

/-! ## The segmentation core, instrumented with carry-over seed tags

`seg_process_line` is `process_line` with the file system, paths, counters
and the (disabled) line transformer projected away, and with each flushed
segment tagged by whether it was opened by the item-count split — i.e.
whether its first line is the duplicated carry-over group header rather
than an input line.  The correspondence with `split` is proved below
(`process_lines_seg_correspond`). -/

structure SegState where
  segs : List (Bool × List String)
  contents : List String
  cur_seeded : Bool
  first_level_id : String
  second_level_item_num : Nat
deriving DecidableEq, Repr

def seg_process_line (max_item_num : Int) (s : SegState) (l : String) : SegState :=
  let line := py_strip l
  if line = "" then s
  else if py_startswith ">>" line then
    if s.first_level_id ≠ "" then
      { segs := s.segs ++ [(s.cur_seeded, s.contents)], contents := [line],
        cur_seeded := false, first_level_id := line, second_level_item_num := 0 }
    else { s with first_level_id := line, contents := s.contents ++ [line] }
  else if py_startswith ">" line then
    if max_item_num ≤ (s.second_level_item_num : Int) then
      { segs := s.segs ++ [(s.cur_seeded, s.contents)],
        contents := [s.first_level_id, line], cur_seeded := true,
        first_level_id := s.first_level_id, second_level_item_num := 1 }
    else { s with second_level_item_num := s.second_level_item_num + 1,
                  contents := s.contents ++ [line] }
  else { s with contents := s.contents ++ [line] }

/-- All segments of a run with the transformer disabled, including the
unconditional final flush, each tagged with its carry-over seed flag. -/
def seg_split (max_item_num : Int) (input_lines : List String) :
    List (Bool × List String) :=
  let s := input_lines.foldl (seg_process_line max_item_num) ⟨[], [], false, "", 0⟩
  s.segs ++ [(s.cur_seeded, s.contents)]

/-- Concatenate segments in sequence order, dropping the seeded carry-over
group header from the head of each continuation segment. -/
def recover_lines (tsegs : List (Bool × List String)) : List String :=
  (tsegs.map (fun p => if p.1 then p.2.drop 1 else p.2)).flatten

/-- The sequence-number bookkeeping: the current id is always one more
than the number of files flushed so far, and the current path is the one
`get_output_file_path` built for that id. -/
def IdPath (op : String) (s : SplitState) : Prop :=
  s.current_id = s.total_file_count + 1 ∧
  s.current_path = outputFileName op (toString s.current_id)

/-- The no-overwrite invariant w.r.t. the initial file system `fs0`: no
file written so far had a pre-existing path, the in-progress target path
is fresh, and `fs0` is still contained in the file system. -/
def NoClobber (fs0 : List String) (s : SplitState) : Prop :=
  (∀ pr ∈ s.files, pr.1 ∉ fs0) ∧ s.current_path ∉ fs0 ∧ ∀ a ∈ fs0, a ∈ s.fs

/-- The bounded-item-count invariant (transformer disabled): the running
item counter never exceeds `m`, the pending buffer holds exactly that many
item-marker lines, the remembered group header is never itself an item
marker, and every flushed segment respects the bound. -/
def BoundInv (m : Int) (s : SplitState) : Prop :=
  (s.second_level_item_num : Int) ≤ m ∧
  count_item_markers s.contents = s.second_level_item_num ∧
  (s.first_level_id = "" ∨ py_startswith ">>" s.first_level_id = true) ∧
  ∀ pr ∈ s.files, (count_item_markers pr.2 : Int) ≤ m

/-- A segment whose first line, if any, is a group-header-shaped line. -/
def GoodSeg (seg : List String) : Prop :=
  ∀ hd, seg.head? = some hd → py_startswith ">>" hd = true

def GoodFiles (files : List (String × List String)) : Prop :=
  ∀ pr ∈ files, GoodSeg pr.2

/-- The header-carry-over phase invariant: either no group marker has been
seen yet (and nothing is buffered or flushed), or the remembered group
header is a `>>` line, the pending buffer starts with it, and every
flushed segment starts with a `>>` line. -/
def PhaseInv (s : SplitState) : Prop :=
  (s.first_level_id = "" ∧ s.contents = [] ∧ s.files = []) ∨
  (py_startswith ">>" s.first_level_id = true ∧
   s.contents.head? = some s.first_level_id ∧ GoodFiles s.files)

/-! ## Correspondence with the instrumented segmentation core -/

/-- The simulation relation between a `split` run with the transformer
disabled and the pure instrumented segmentation core. -/
def SegRel (s : SplitState) (t : SegState) : Prop :=
  s.contents = t.contents ∧ s.first_level_id = t.first_level_id ∧
  s.second_level_item_num = t.second_level_item_num ∧
  s.files.map Prod.snd = t.segs.map Prod.snd

/-- All input lines recovered from a segmentation state: the flushed
segments with their seeds dropped, then the pending buffer with its seed
dropped. -/
def seg_recover_state (t : SegState) : List String :=
  recover_lines (t.segs ++ [(t.cur_seeded, t.contents)])

/-! ## Sensitivity of a run to one extra pre-existing file -/

/-- The same file system with one extra pre-existing file `q`. -/
def addFile (q : String) (s : SplitState) : SplitState :=
  { s with fs := q :: s.fs }

/-! ## Whole-run case analysis -/

/-- The run-log path `prefix_log.txt` that `split` existence-checks and
creates before reading any input. -/
def log_path (op : String) : String := outputFileName op "log"

/-- The loop state right after `split` has created the log file and
computed the path for sequence number 1. -/
def init_state (fs0 : List String) (op : String) : SplitState :=
  { fs := fs0 ++ [log_path op], files := [], contents := [],
    current_path := outputFileName op (toString (1 : Nat)), current_id := 1,
    first_level_id := "", second_level_item_num := 0, total_line_count := 0,
    total_file_count := 0 }

/-! ## Proofs -/

/-! ## Branch characterizations of one loop step -/

theorem save_switch_ok {out_pref : String} {s : SplitState}
    (h : next_path out_pref s ∉ s.fs ++ [s.current_path]) :
    save_to_file_and_switch_output_file out_pref s =
      ({ s with fs := s.fs ++ [s.current_path],
                files := s.files ++ [(s.current_path, s.contents)],
                contents := [], current_path := next_path out_pref s,
                current_id := s.current_id + 1 }, none) := by
  simp [save_to_file_and_switch_output_file, get_output_file_path, next_path] at h ⊢
  simp [h]

theorem save_switch_err {out_pref : String} {s : SplitState}
    (h : next_path out_pref s ∈ s.fs ++ [s.current_path]) :
    save_to_file_and_switch_output_file out_pref s =
      ({ s with fs := s.fs ++ [s.current_path],
                files := s.files ++ [(s.current_path, s.contents)] },
       some (.fileExists (next_path out_pref s))) := by
  simp [save_to_file_and_switch_output_file, get_output_file_path, next_path] at h ⊢
  simp [h]

theorem process_line_blank {op : String} {m : Int} {prs : List String} {sep : String}
    {s : SplitState} {l : String} (h : py_strip l = "") :
    process_line op m prs sep s l = (s, none) := by
  simp [process_line, h]

theorem process_line_group_first {op : String} {m : Int} {prs : List String}
    {sep : String} {s : SplitState} {l line : String}
    (hl : py_strip l = line) (h0 : line ≠ "")
    (h2 : py_startswith ">>" line = true) (h3 : s.first_level_id = "") :
    process_line op m prs sep s l =
      ({ s with first_level_id := line, contents := s.contents ++ [line],
                total_line_count := s.total_line_count + 1 }, none) := by
  simp [process_line, hl, h0, h2, h3]

theorem process_line_group_flush_ok {op : String} {m : Int} {prs : List String}
    {sep : String} {s : SplitState} {l line : String}
    (hl : py_strip l = line) (h0 : line ≠ "")
    (h2 : py_startswith ">>" line = true) (h3 : s.first_level_id ≠ "")
    (h4 : next_path op s ∉ s.fs ++ [s.current_path]) :
    process_line op m prs sep s l =
      ({ s with fs := s.fs ++ [s.current_path],
                files := s.files ++ [(s.current_path, s.contents)],
                contents := [line], current_path := next_path op s,
                current_id := s.current_id + 1,
                total_file_count := s.total_file_count + 1,
                second_level_item_num := 0, first_level_id := line,
                total_line_count := s.total_line_count + 1 }, none) := by
  simp [process_line, hl, h0, h2, h3, save_switch_ok h4]

theorem process_line_group_flush_err {op : String} {m : Int} {prs : List String}
    {sep : String} {s : SplitState} {l line : String}
    (hl : py_strip l = line) (h0 : line ≠ "")
    (h2 : py_startswith ">>" line = true) (h3 : s.first_level_id ≠ "")
    (h4 : next_path op s ∈ s.fs ++ [s.current_path]) :
    process_line op m prs sep s l =
      ({ s with fs := s.fs ++ [s.current_path],
                files := s.files ++ [(s.current_path, s.contents)] },
       some (.fileExists (next_path op s))) := by
  simp [process_line, hl, h0, h2, h3, save_switch_err h4]

theorem process_line_item_small {op : String} {m : Int} {prs : List String}
    {sep : String} {s : SplitState} {l line : String}
    (hl : py_strip l = line) (h0 : line ≠ "")
    (h2 : py_startswith ">>" line = false) (h2b : py_startswith ">" line = true)
    (h3 : ¬ m ≤ (s.second_level_item_num : Int)) :
    process_line op m prs sep s l =
      ({ s with second_level_item_num := s.second_level_item_num + 1,
                contents := s.contents ++ [line],
                total_line_count := s.total_line_count + 1 }, none) := by
  simp [process_line, hl, h0, h2, h2b, h3]

theorem process_line_item_flush_ok {op : String} {m : Int} {prs : List String}
    {sep : String} {s : SplitState} {l line : String}
    (hl : py_strip l = line) (h0 : line ≠ "")
    (h2 : py_startswith ">>" line = false) (h2b : py_startswith ">" line = true)
    (h3 : m ≤ (s.second_level_item_num : Int))
    (h4 : next_path op s ∉ s.fs ++ [s.current_path]) :
    process_line op m prs sep s l =
      ({ s with fs := s.fs ++ [s.current_path],
                files := s.files ++ [(s.current_path, s.contents)],
                contents := [s.first_level_id, line],
                current_path := next_path op s, current_id := s.current_id + 1,
                total_file_count := s.total_file_count + 1,
                second_level_item_num := 1,
                total_line_count := s.total_line_count + 1 }, none) := by
  simp [process_line, hl, h0, h2, h2b, h3, save_switch_ok h4]

theorem process_line_item_flush_err {op : String} {m : Int} {prs : List String}
    {sep : String} {s : SplitState} {l line : String}
    (hl : py_strip l = line) (h0 : line ≠ "")
    (h2 : py_startswith ">>" line = false) (h2b : py_startswith ">" line = true)
    (h3 : m ≤ (s.second_level_item_num : Int))
    (h4 : next_path op s ∈ s.fs ++ [s.current_path]) :
    process_line op m prs sep s l =
      ({ s with fs := s.fs ++ [s.current_path],
                files := s.files ++ [(s.current_path, s.contents)] },
       some (.fileExists (next_path op s))) := by
  simp [process_line, hl, h0, h2, h2b, h3, save_switch_err h4]

theorem process_line_data_plain {op : String} {m : Int} {sep : String}
    {s : SplitState} {l line : String}
    (hl : py_strip l = line) (h0 : line ≠ "")
    (h2 : py_startswith ">>" line = false) (h2b : py_startswith ">" line = false) :
    process_line op m [] sep s l =
      ({ s with contents := s.contents ++ [line],
                total_line_count := s.total_line_count + 1 }, none) := by
  simp [process_line, hl, h0, h2, h2b]

theorem process_line_data_ok {op : String} {m : Int} {prs : List String}
    {sep : String} {s : SplitState} {l line line2 : String}
    (hl : py_strip l = line) (h0 : line ≠ "")
    (h2 : py_startswith ">>" line = false) (h2b : py_startswith ">" line = false)
    (h3 : 0 < prs.length) (h4 : transform_data_line prs sep line = .ok line2) :
    process_line op m prs sep s l =
      ({ s with contents := s.contents ++ [line2],
                total_line_count := s.total_line_count + 1 }, none) := by
  simp [process_line, hl, h0, h2, h2b, h3, h4]

theorem process_line_data_err {op : String} {m : Int} {prs : List String}
    {sep : String} {s : SplitState} {l line : String} {e : SplitError}
    (hl : py_strip l = line) (h0 : line ≠ "")
    (h2 : py_startswith ">>" line = false) (h2b : py_startswith ">" line = false)
    (h3 : 0 < prs.length) (h4 : transform_data_line prs sep line = .error e) :
    process_line op m prs sep s l = (s, some e) := by
  simp [process_line, hl, h0, h2, h2b, h3, h4]

/-! ## Facts about path names and marker shapes -/

theorem outputFileName_inj {op a b : String}
    (h : outputFileName op a = outputFileName op b) : a = b := by
  have h' : op.data ++ ("_".data ++ (a.data ++ ".txt".data)) =
      op.data ++ ("_".data ++ (b.data ++ ".txt".data)) := by
    simpa [outputFileName, String.ext_iff, String.data_append,
      List.append_assoc] using h
  exact String.ext (List.append_cancel_right
    (List.append_cancel_left (List.append_cancel_left h')))

theorem is_item_marker_true {line : String} (h2 : py_startswith ">>" line = false)
    (h2b : py_startswith ">" line = true) : is_item_marker line = true := by
  simp [is_item_marker, h2, h2b]

theorem is_item_marker_false_group {line : String}
    (h : py_startswith ">>" line = true) : is_item_marker line = false := by
  simp [is_item_marker, h]

theorem is_item_marker_false_data {line : String}
    (h : py_startswith ">" line = false) : is_item_marker line = false := by
  simp [is_item_marker, h]

theorem count_item_markers_append (xs ys : List String) :
    count_item_markers (xs ++ ys) = count_item_markers xs + count_item_markers ys := by
  simp [count_item_markers, List.filter_append]

theorem count_item_markers_single (x : String) :
    count_item_markers [x] = if is_item_marker x then 1 else 0 := by
  by_cases h : is_item_marker x <;> simp [count_item_markers, List.filter, h]

/-! ## Exhaustive case analysis of one loop step -/

/-- Everything `process_line` can do, as one disjunction: the ten branches
of the loop body, each with the conditions that select it and the exact
resulting state. -/
theorem process_line_spec (op : String) (m : Int) (prs : List String) (sep : String)
    (s : SplitState) (l : String) :
    (py_strip l = "" ∧ process_line op m prs sep s l = (s, none)) ∨
    (py_strip l ≠ "" ∧ py_startswith ">>" (py_strip l) = true ∧
      s.first_level_id = "" ∧
      process_line op m prs sep s l =
        ({ s with first_level_id := py_strip l,
                  contents := s.contents ++ [py_strip l],
                  total_line_count := s.total_line_count + 1 }, none)) ∨
    (py_strip l ≠ "" ∧ py_startswith ">>" (py_strip l) = true ∧
      s.first_level_id ≠ "" ∧ next_path op s ∉ s.fs ++ [s.current_path] ∧
      process_line op m prs sep s l =
        ({ s with fs := s.fs ++ [s.current_path],
                  files := s.files ++ [(s.current_path, s.contents)],
                  contents := [py_strip l], current_path := next_path op s,
                  current_id := s.current_id + 1,
                  total_file_count := s.total_file_count + 1,
                  second_level_item_num := 0, first_level_id := py_strip l,
                  total_line_count := s.total_line_count + 1 }, none)) ∨
    (py_strip l ≠ "" ∧ py_startswith ">>" (py_strip l) = true ∧
      s.first_level_id ≠ "" ∧ next_path op s ∈ s.fs ++ [s.current_path] ∧
      process_line op m prs sep s l =
        ({ s with fs := s.fs ++ [s.current_path],
                  files := s.files ++ [(s.current_path, s.contents)] },
         some (.fileExists (next_path op s)))) ∨
    (py_strip l ≠ "" ∧ py_startswith ">>" (py_strip l) = false ∧
      py_startswith ">" (py_strip l) = true ∧
      ¬ m ≤ (s.second_level_item_num : Int) ∧
      process_line op m prs sep s l =
        ({ s with second_level_item_num := s.second_level_item_num + 1,
                  contents := s.contents ++ [py_strip l],
                  total_line_count := s.total_line_count + 1 }, none)) ∨
    (py_strip l ≠ "" ∧ py_startswith ">>" (py_strip l) = false ∧
      py_startswith ">" (py_strip l) = true ∧
      m ≤ (s.second_level_item_num : Int) ∧
      next_path op s ∉ s.fs ++ [s.current_path] ∧
      process_line op m prs sep s l =
        ({ s with fs := s.fs ++ [s.current_path],
                  files := s.files ++ [(s.current_path, s.contents)],
                  contents := [s.first_level_id, py_strip l],
                  current_path := next_path op s, current_id := s.current_id + 1,
                  total_file_count := s.total_file_count + 1,
                  second_level_item_num := 1,
                  total_line_count := s.total_line_count + 1 }, none)) ∨
    (py_strip l ≠ "" ∧ py_startswith ">>" (py_strip l) = false ∧
      py_startswith ">" (py_strip l) = true ∧
      m ≤ (s.second_level_item_num : Int) ∧
      next_path op s ∈ s.fs ++ [s.current_path] ∧
      process_line op m prs sep s l =
        ({ s with fs := s.fs ++ [s.current_path],
                  files := s.files ++ [(s.current_path, s.contents)] },
         some (.fileExists (next_path op s)))) ∨
    (py_strip l ≠ "" ∧ py_startswith ">>" (py_strip l) = false ∧
      py_startswith ">" (py_strip l) = false ∧ prs = [] ∧
      process_line op m prs sep s l =
        ({ s with contents := s.contents ++ [py_strip l],
                  total_line_count := s.total_line_count + 1 }, none)) ∨
    (py_strip l ≠ "" ∧ py_startswith ">>" (py_strip l) = false ∧
      py_startswith ">" (py_strip l) = false ∧ 0 < prs.length ∧
      ∃ line2, transform_data_line prs sep (py_strip l) = .ok line2 ∧
      process_line op m prs sep s l =
        ({ s with contents := s.contents ++ [line2],
                  total_line_count := s.total_line_count + 1 }, none)) ∨
    (py_strip l ≠ "" ∧ py_startswith ">>" (py_strip l) = false ∧
      py_startswith ">" (py_strip l) = false ∧ 0 < prs.length ∧
      ∃ e, transform_data_line prs sep (py_strip l) = .error e ∧
      process_line op m prs sep s l = (s, some e)) := by
  by_cases h0 : py_strip l = ""
  · exact Or.inl ⟨h0, process_line_blank h0⟩
  · by_cases h2 : py_startswith ">>" (py_strip l) = true
    · by_cases h3 : s.first_level_id = ""
      · exact Or.inr (Or.inl ⟨h0, h2, h3, process_line_group_first rfl h0 h2 h3⟩)
      · by_cases h4 : next_path op s ∈ s.fs ++ [s.current_path]
        · exact Or.inr (Or.inr (Or.inr (Or.inl
            ⟨h0, h2, h3, h4, process_line_group_flush_err rfl h0 h2 h3 h4⟩)))
        · exact Or.inr (Or.inr (Or.inl
            ⟨h0, h2, h3, h4, process_line_group_flush_ok rfl h0 h2 h3 h4⟩))
    · rw [Bool.not_eq_true] at h2
      by_cases h2b : py_startswith ">" (py_strip l) = true
      · by_cases h3 : m ≤ (s.second_level_item_num : Int)
        · by_cases h4 : next_path op s ∈ s.fs ++ [s.current_path]
          · exact Or.inr (Or.inr (Or.inr (Or.inr (Or.inr (Or.inr (Or.inl
              ⟨h0, h2, h2b, h3, h4,
                process_line_item_flush_err rfl h0 h2 h2b h3 h4⟩))))))
          · exact Or.inr (Or.inr (Or.inr (Or.inr (Or.inr (Or.inl
              ⟨h0, h2, h2b, h3, h4,
                process_line_item_flush_ok rfl h0 h2 h2b h3 h4⟩)))))
        · exact Or.inr (Or.inr (Or.inr (Or.inr (Or.inl
            ⟨h0, h2, h2b, h3, process_line_item_small rfl h0 h2 h2b h3⟩))))
      · rw [Bool.not_eq_true] at h2b
        by_cases hp : 0 < prs.length
        · cases h4 : transform_data_line prs sep (py_strip l) with
          | ok line2 =>
              exact Or.inr (Or.inr (Or.inr (Or.inr (Or.inr (Or.inr (Or.inr
                (Or.inr (Or.inl ⟨h0, h2, h2b, hp, line2, rfl,
                  process_line_data_ok rfl h0 h2 h2b hp h4⟩))))))))
          | error e =>
              exact Or.inr (Or.inr (Or.inr (Or.inr (Or.inr (Or.inr (Or.inr
                (Or.inr (Or.inr ⟨h0, h2, h2b, hp, e, rfl,
                  process_line_data_err rfl h0 h2 h2b hp h4⟩))))))))
        · have hpe : prs = [] := by
            cases prs with
            | nil => rfl
            | cons p ps => simp at hp
          subst hpe
          exact Or.inr (Or.inr (Or.inr (Or.inr (Or.inr (Or.inr (Or.inr (Or.inl
            ⟨h0, h2, h2b, rfl, process_line_data_plain rfl h0 h2 h2b⟩)))))))

/-! ## Run invariants -/

theorem process_line_fs_mono {op : String} {m : Int} {prs : List String}
    {sep : String} {s : SplitState} {l a : String} (h : a ∈ s.fs) :
    a ∈ (process_line op m prs sep s l).1.fs := by
  rcases process_line_spec op m prs sep s l with
    ⟨h0, he⟩ | ⟨h0, h2, h3, he⟩ | ⟨h0, h2, h3, h4, he⟩ | ⟨h0, h2, h3, h4, he⟩ |
    ⟨h0, h2, h2b, h3, he⟩ | ⟨h0, h2, h2b, h3, h4, he⟩ | ⟨h0, h2, h2b, h3, h4, he⟩ |
    ⟨h0, h2, h2b, hp, he⟩ | ⟨h0, h2, h2b, hp, line2, ht, he⟩ |
    ⟨h0, h2, h2b, hp, e, ht, he⟩ <;>
  simp [he, h]

theorem process_lines_fs_mono {op : String} {m : Int} {prs : List String}
    {sep : String} : ∀ (ls : List String) (s : SplitState) (a : String),
    a ∈ s.fs → a ∈ (process_lines op m prs sep s ls).1.fs := by
  intro ls
  induction ls with
  | nil => intro s a h; simpa [process_lines] using h
  | cons l ls ih =>
    intro s a h
    have hstep : a ∈ (process_line op m prs sep s l).1.fs :=
      process_line_fs_mono h
    rcases hpl : process_line op m prs sep s l with ⟨s1, err⟩
    rw [hpl] at hstep
    cases err with
    | some e => simpa [process_lines, hpl] using hstep
    | none => simpa [process_lines, hpl] using ih s1 a hstep

theorem process_line_current {op : String} {m : Int} {prs : List String}
    {sep : String} {s : SplitState} {l : String} :
    s.current_path ∈ (process_line op m prs sep s l).1.fs ∨
    s.current_path = (process_line op m prs sep s l).1.current_path := by
  rcases process_line_spec op m prs sep s l with
    ⟨h0, he⟩ | ⟨h0, h2, h3, he⟩ | ⟨h0, h2, h3, h4, he⟩ | ⟨h0, h2, h3, h4, he⟩ |
    ⟨h0, h2, h2b, h3, he⟩ | ⟨h0, h2, h2b, h3, h4, he⟩ | ⟨h0, h2, h2b, h3, h4, he⟩ |
    ⟨h0, h2, h2b, hp, he⟩ | ⟨h0, h2, h2b, hp, line2, ht, he⟩ |
    ⟨h0, h2, h2b, hp, e, ht, he⟩ <;>
  simp [he]

theorem process_lines_current {op : String} {m : Int} {prs : List String}
    {sep : String} : ∀ (ls : List String) (s : SplitState),
    s.current_path ∈ (process_lines op m prs sep s ls).1.fs ∨
    s.current_path = (process_lines op m prs sep s ls).1.current_path := by
  intro ls
  induction ls with
  | nil => intro s; simp [process_lines]
  | cons l ls ih =>
    intro s
    rcases hpl : process_line op m prs sep s l with ⟨s1, err⟩
    have hstep := @process_line_current op m prs sep s l
    rw [hpl] at hstep
    cases err with
    | some e => simpa [process_lines, hpl] using hstep
    | none =>
      rcases hstep with hmem | hcur
      · exact Or.inl (by simpa [process_lines, hpl] using
          process_lines_fs_mono ls s1 s.current_path hmem)
      · rw [hcur]
        simpa [process_lines, hpl] using ih s1

theorem process_line_id_path {op : String} {m : Int} {prs : List String}
    {sep : String} {s : SplitState} {l : String} (h : IdPath op s) :
    IdPath op (process_line op m prs sep s l).1 := by
  obtain ⟨h1, h2⟩ := h
  rcases process_line_spec op m prs sep s l with
    ⟨h0, he⟩ | ⟨h0, hg2, h3, he⟩ | ⟨h0, hg2, h3, h4, he⟩ | ⟨h0, hg2, h3, h4, he⟩ |
    ⟨h0, hg2, h2b, h3, he⟩ | ⟨h0, hg2, h2b, h3, h4, he⟩ | ⟨h0, hg2, h2b, h3, h4, he⟩ |
    ⟨h0, hg2, h2b, hp, he⟩ | ⟨h0, hg2, h2b, hp, line2, ht, he⟩ |
    ⟨h0, hg2, h2b, hp, e, ht, he⟩ <;>
  simp [he, IdPath, next_path, h1, h2]

theorem process_lines_id_path {op : String} {m : Int} {prs : List String}
    {sep : String} : ∀ (ls : List String) (s : SplitState), IdPath op s →
    IdPath op (process_lines op m prs sep s ls).1 := by
  intro ls
  induction ls with
  | nil => intro s h; simpa [process_lines] using h
  | cons l ls ih =>
    intro s h
    rcases hpl : process_line op m prs sep s l with ⟨s1, err⟩
    have hstep := @process_line_id_path op m prs sep s l h
    rw [hpl] at hstep
    cases err with
    | some e => simpa [process_lines, hpl] using hstep
    | none => simpa [process_lines, hpl] using ih s1 hstep

theorem process_line_no_clobber {fs0 : List String} {op : String} {m : Int}
    {prs : List String} {sep : String} {s : SplitState} {l : String}
    (h : NoClobber fs0 s) : NoClobber fs0 (process_line op m prs sep s l).1 := by
  obtain ⟨hf, hc, hsub⟩ := h
  have hwrite : ∀ pr ∈ s.files ++ [(s.current_path, s.contents)], pr.1 ∉ fs0 := by
    intro pr hpr
    rcases List.mem_append.mp hpr with hin | hin
    · exact hf pr hin
    · simp only [List.mem_singleton] at hin
      rw [hin]
      exact hc
  have hsub' : ∀ a ∈ fs0, a ∈ s.fs ++ [s.current_path] := by
    intro a ha
    exact List.mem_append.mpr (Or.inl (hsub a ha))
  rcases process_line_spec op m prs sep s l with
    ⟨h0, he⟩ | ⟨h0, h2, h3, he⟩ | ⟨h0, h2, h3, h4, he⟩ | ⟨h0, h2, h3, h4, he⟩ |
    ⟨h0, h2, h2b, h3, he⟩ | ⟨h0, h2, h2b, h3, h4, he⟩ | ⟨h0, h2, h2b, h3, h4, he⟩ |
    ⟨h0, h2, h2b, hp, he⟩ | ⟨h0, h2, h2b, hp, line2, ht, he⟩ |
    ⟨h0, h2, h2b, hp, e, ht, he⟩ <;>
  simp only [he] <;>
  refine ⟨by assumption, ?_, by assumption⟩ <;>
  try exact hc
  all_goals
    intro hnp
    exact (by assumption : next_path op s ∉ s.fs ++ [s.current_path])
      (hsub' (next_path op s) hnp)

theorem process_lines_no_clobber {fs0 : List String} {op : String} {m : Int}
    {prs : List String} {sep : String} : ∀ (ls : List String) (s : SplitState),
    NoClobber fs0 s → NoClobber fs0 (process_lines op m prs sep s ls).1 := by
  intro ls
  induction ls with
  | nil => intro s h; simpa [process_lines] using h
  | cons l ls ih =>
    intro s h
    rcases hpl : process_line op m prs sep s l with ⟨s1, err⟩
    have hstep := @process_line_no_clobber fs0 op m prs sep s l h
    rw [hpl] at hstep
    cases err with
    | some e => simpa [process_lines, hpl] using hstep
    | none => simpa [process_lines, hpl] using ih s1 hstep

theorem head?_append_of_some {α : Type} {xs : List α} {a : α}
    (h : xs.head? = some a) (ys : List α) : (xs ++ ys).head? = some a := by
  cases xs with
  | nil => cases h
  | cons b t => simpa using h

theorem process_line_bound {op sep : String} {m : Int} {s : SplitState}
    {l : String} (hm : 1 ≤ m) (h : BoundInv m s) :
    BoundInv m (process_line op m [] sep s l).1 := by
  obtain ⟨hn, hcnt, hfl, hsegs⟩ := h
  have hflm : is_item_marker s.first_level_id = false := by
    rcases hfl with hfl | hfl
    · rw [hfl]; decide
    · exact is_item_marker_false_group hfl
  have hsegs' : ∀ pr ∈ s.files ++ [(s.current_path, s.contents)],
      (count_item_markers pr.2 : Int) ≤ m := by
    intro pr hpr
    rcases List.mem_append.mp hpr with hin | hin
    · exact hsegs pr hin
    · simp only [List.mem_singleton] at hin
      rw [hin, hcnt]
      exact hn
  rcases process_line_spec op m [] sep s l with
    ⟨h0, he⟩ | ⟨h0, h2, h3, he⟩ | ⟨h0, h2, h3, h4, he⟩ | ⟨h0, h2, h3, h4, he⟩ |
    ⟨h0, h2, h2b, h3, he⟩ | ⟨h0, h2, h2b, h3, h4, he⟩ | ⟨h0, h2, h2b, h3, h4, he⟩ |
    ⟨h0, h2, h2b, hp, he⟩ | ⟨h0, h2, h2b, hp, line2, ht, he⟩ |
    ⟨h0, h2, h2b, hp, e, ht, he⟩
  · simp only [he]; exact ⟨hn, hcnt, hfl, hsegs⟩
  · simp only [he, BoundInv]
    refine ⟨hn, ?_, Or.inr h2, hsegs⟩
    simp [count_item_markers_append, count_item_markers_single,
      is_item_marker_false_group h2, hcnt]
  · simp only [he, BoundInv]
    refine ⟨by omega, ?_, Or.inr h2, hsegs'⟩
    simp [count_item_markers, is_item_marker_false_group h2]
  · simp only [he, BoundInv]
    exact ⟨hn, hcnt, hfl, hsegs'⟩
  · simp only [he, BoundInv]
    refine ⟨by omega, ?_, hfl, hsegs⟩
    simp [count_item_markers_append, count_item_markers_single,
      is_item_marker_true h2 h2b, hcnt]
  · simp only [he, BoundInv]
    refine ⟨by omega, ?_, hfl, hsegs'⟩
    simp [count_item_markers_append, count_item_markers_single,
      is_item_marker_true h2 h2b, hflm, count_item_markers]
  · simp only [he, BoundInv]
    exact ⟨hn, hcnt, hfl, hsegs'⟩
  · simp only [he, BoundInv]
    refine ⟨hn, ?_, hfl, hsegs⟩
    simp [count_item_markers_append, count_item_markers_single,
      is_item_marker_false_data h2b, hcnt]
  · simp at hp
  · simp at hp

theorem process_lines_bound {op sep : String} {m : Int} (hm : 1 ≤ m) :
    ∀ (ls : List String) (s : SplitState), BoundInv m s →
    BoundInv m (process_lines op m [] sep s ls).1 := by
  intro ls
  induction ls with
  | nil => intro s h; simpa [process_lines] using h
  | cons l ls ih =>
    intro s h
    rcases hpl : process_line op m [] sep s l with ⟨s1, err⟩
    have hstep := @process_line_bound op sep m s l hm h
    rw [hpl] at hstep
    cases err with
    | some e => simpa [process_lines, hpl] using hstep
    | none => simpa [process_lines, hpl] using ih s1 hstep

theorem clean_lines_cons_blank {l : String} {ls : List String}
    (h : py_strip l = "") : clean_lines (l :: ls) = clean_lines ls := by
  simp [clean_lines, h]

theorem clean_lines_cons {l : String} {ls : List String} (h : py_strip l ≠ "") :
    clean_lines (l :: ls) = py_strip l :: clean_lines ls := by
  simp [clean_lines, h]

theorem startswith_group_ne_empty {t : String}
    (ht : py_startswith ">>" t = true) : t ≠ "" := by
  intro hteq
  rw [hteq] at ht
  exact absurd ht (by decide)

theorem good_files_write {s : SplitState}
    (hgf : GoodFiles s.files) (hgs : GoodSeg s.contents) :
    GoodFiles (s.files ++ [(s.current_path, s.contents)]) := by
  intro pr hpr
  rcases List.mem_append.mp hpr with hin | hin
  · exact hgf pr hin
  · simp only [List.mem_singleton] at hin
    rw [hin]
    exact hgs

theorem process_line_phase {op : String} {m : Int} {prs : List String}
    {sep : String} {s : SplitState} {l : String} (h : PhaseInv s)
    (hwf : s.first_level_id = "" → py_strip l ≠ "" →
      py_startswith ">>" (py_strip l) = true) :
    PhaseInv (process_line op m prs sep s l).1 ∧
    ((process_line op m prs sep s l).1.first_level_id = "" →
      s.first_level_id = "" ∧ py_strip l = "") := by
  rcases process_line_spec op m prs sep s l with
    ⟨h0, he⟩ | ⟨h0, h2, h3, he⟩ | ⟨h0, h2, h3, h4, he⟩ | ⟨h0, h2, h3, h4, he⟩ |
    ⟨h0, h2, h2b, h3, he⟩ | ⟨h0, h2, h2b, h3, h4, he⟩ | ⟨h0, h2, h2b, h3, h4, he⟩ |
    ⟨h0, h2, h2b, hp, he⟩ | ⟨h0, h2, h2b, hp, line2, ht, he⟩ |
    ⟨h0, h2, h2b, hp, e, ht, he⟩
  · simp only [he]
    exact ⟨h, fun hf => ⟨hf, h0⟩⟩
  · -- first group marker: enter the second phase
    have hph1 : s.contents = [] ∧ s.files = [] := by
      rcases h with ⟨_, hc, hf⟩ | ⟨hg, _, _⟩
      · exact ⟨hc, hf⟩
      · exact absurd h3 (startswith_group_ne_empty hg)
    simp only [he, PhaseInv]
    refine ⟨Or.inr ⟨h2, ?_, ?_⟩, fun hf => absurd hf h0⟩
    · rw [hph1.1]; rfl
    · rw [hph1.2]; intro pr hpr; cases hpr
  · -- group marker, flush, switch group
    rcases h with ⟨hfl, _, _⟩ | ⟨hg, hhd, hgf⟩
    · exact absurd hfl h3
    simp only [he, PhaseInv]
    refine ⟨Or.inr ⟨h2, rfl, ?_⟩, fun hf => absurd hf h0⟩
    exact good_files_write hgf (fun hd hhd' => by
      rw [hhd] at hhd'; cases hhd'; exact hg)
  · -- group marker, flush fails
    rcases h with ⟨hfl, _, _⟩ | ⟨hg, hhd, hgf⟩
    · exact absurd hfl h3
    simp only [he, PhaseInv]
    refine ⟨Or.inr ⟨hg, hhd, ?_⟩,
      fun hf => absurd hf (startswith_group_ne_empty hg)⟩
    exact good_files_write hgf (fun hd hhd' => by
      rw [hhd] at hhd'; cases hhd'; exact hg)
  · -- item marker, no flush
    rcases h with ⟨hfl, _, _⟩ | ⟨hg, hhd, hgf⟩
    · exact absurd (hwf hfl h0) (by rw [h2]; exact Bool.false_ne_true)
    simp only [he, PhaseInv]
    exact ⟨Or.inr ⟨hg, head?_append_of_some hhd _, hgf⟩,
      fun hf => absurd hf (startswith_group_ne_empty hg)⟩
  · -- item marker, flush, seed carry-over header
    rcases h with ⟨hfl, _, _⟩ | ⟨hg, hhd, hgf⟩
    · exact absurd (hwf hfl h0) (by rw [h2]; exact Bool.false_ne_true)
    simp only [he, PhaseInv]
    refine ⟨Or.inr ⟨hg, rfl, ?_⟩,
      fun hf => absurd hf (startswith_group_ne_empty hg)⟩
    exact good_files_write hgf (fun hd hhd' => by
      rw [hhd] at hhd'; cases hhd'; exact hg)
  · -- item marker, flush fails
    rcases h with ⟨hfl, _, _⟩ | ⟨hg, hhd, hgf⟩
    · exact absurd (hwf hfl h0) (by rw [h2]; exact Bool.false_ne_true)
    simp only [he, PhaseInv]
    refine ⟨Or.inr ⟨hg, hhd, ?_⟩,
      fun hf => absurd hf (startswith_group_ne_empty hg)⟩
    exact good_files_write hgf (fun hd hhd' => by
      rw [hhd] at hhd'; cases hhd'; exact hg)
  · -- untransformed data line
    rcases h with ⟨hfl, _, _⟩ | ⟨hg, hhd, hgf⟩
    · exact absurd (hwf hfl h0) (by rw [h2]; exact Bool.false_ne_true)
    simp only [he, PhaseInv]
    exact ⟨Or.inr ⟨hg, head?_append_of_some hhd _, hgf⟩,
      fun hf => absurd hf (startswith_group_ne_empty hg)⟩
  · -- transformed data line
    rcases h with ⟨hfl, _, _⟩ | ⟨hg, hhd, hgf⟩
    · exact absurd (hwf hfl h0) (by rw [h2]; exact Bool.false_ne_true)
    simp only [he, PhaseInv]
    exact ⟨Or.inr ⟨hg, head?_append_of_some hhd _, hgf⟩,
      fun hf => absurd hf (startswith_group_ne_empty hg)⟩
  · -- transformer failure: state unchanged
    rcases h with ⟨hfl, _, _⟩ | ⟨hg, hhd, hgf⟩
    · exact absurd (hwf hfl h0) (by rw [h2]; exact Bool.false_ne_true)
    simp only [he]
    exact ⟨Or.inr ⟨hg, hhd, hgf⟩,
      fun hf => absurd hf (startswith_group_ne_empty hg)⟩

theorem process_lines_phase {op : String} {m : Int} {prs : List String}
    {sep : String} : ∀ (ls : List String) (s : SplitState), PhaseInv s →
    (s.first_level_id = "" → ∀ hd, (clean_lines ls).head? = some hd →
      py_startswith ">>" hd = true) →
    PhaseInv (process_lines op m prs sep s ls).1 := by
  intro ls
  induction ls with
  | nil => intro s h _; simpa [process_lines] using h
  | cons l ls ih =>
    intro s h hwf
    by_cases h0 : py_strip l = ""
    · have hred : process_lines op m prs sep s (l :: ls) =
          process_lines op m prs sep s ls := by
        simp [process_lines, process_line_blank h0]
      rw [hred]
      refine ih s h ?_
      intro hfl hd hhd
      exact hwf hfl hd (by rwa [clean_lines_cons_blank h0])
    · have hwf1 : s.first_level_id = "" → py_strip l ≠ "" →
          py_startswith ">>" (py_strip l) = true := by
        intro hfl _
        exact hwf hfl (py_strip l) (by rw [clean_lines_cons h0]; rfl)
      rcases hpl : process_line op m prs sep s l with ⟨s1, err⟩
      have hstep := @process_line_phase op m prs sep s l h hwf1
      rw [hpl] at hstep
      obtain ⟨hph1, hfl1⟩ := hstep
      cases err with
      | some e => simpa [process_lines, hpl] using hph1
      | none =>
        have hrec : PhaseInv (process_lines op m prs sep s1 ls).1 := by
          refine ih s1 hph1 ?_
          intro hfl hd hhd
          exact absurd (hfl1 hfl).2 h0
        simpa [process_lines, hpl] using hrec

theorem process_line_count {op : String} {m : Int} {prs : List String}
    {sep : String} {s s' : SplitState} {l : String}
    (hs : process_line op m prs sep s l = (s', none)) :
    s'.total_line_count = s.total_line_count + (clean_lines [l]).length := by
  rcases process_line_spec op m prs sep s l with
    ⟨h0, he⟩ | ⟨h0, h2, h3, he⟩ | ⟨h0, h2, h3, h4, he⟩ | ⟨h0, h2, h3, h4, he⟩ |
    ⟨h0, h2, h2b, h3, he⟩ | ⟨h0, h2, h2b, h3, h4, he⟩ | ⟨h0, h2, h2b, h3, h4, he⟩ |
    ⟨h0, h2, h2b, hp, he⟩ | ⟨h0, h2, h2b, hp, line2, ht, he⟩ |
    ⟨h0, h2, h2b, hp, e, ht, he⟩ <;>
  rw [he] at hs <;>
  injection hs with h1 hopt
  all_goals first
  | exact Option.noConfusion hopt
  | (subst h1; simp [clean_lines, h0])

theorem process_lines_count {op : String} {m : Int} {prs : List String}
    {sep : String} : ∀ (ls : List String) (s s1 : SplitState),
    process_lines op m prs sep s ls = (s1, none) →
    s1.total_line_count = s.total_line_count + (clean_lines ls).length := by
  intro ls
  induction ls with
  | nil =>
    intro s s1 h
    simp only [process_lines] at h
    injection h with h1 _
    subst h1
    simp [clean_lines]
  | cons l ls ih =>
    intro s s1 h
    rcases hpl : process_line op m prs sep s l with ⟨s', err⟩
    rw [process_lines, hpl] at h
    cases err with
    | some e => exact absurd h (by simp)
    | none =>
      have hrec := ih s' s1 (by simpa using h)
      have hstep := process_line_count hpl
      by_cases h0 : py_strip l = ""
      · rw [hrec, hstep]
        simp [clean_lines_cons_blank h0, clean_lines, h0]
      · rw [hrec, hstep]
        simp [clean_lines_cons h0, clean_lines, h0]
        omega

theorem process_line_seg {op sep : String} {m : Int} {s s1 : SplitState}
    {t : SegState} {l : String}
    (hs : process_line op m [] sep s l = (s1, none)) (hrel : SegRel s t) :
    SegRel s1 (seg_process_line m t l) := by
  obtain ⟨rc, rf, rn, rs⟩ := hrel
  rcases process_line_spec op m [] sep s l with
    ⟨h0, he⟩ | ⟨h0, h2, h3, he⟩ | ⟨h0, h2, h3, h4, he⟩ | ⟨h0, h2, h3, h4, he⟩ |
    ⟨h0, h2, h2b, h3, he⟩ | ⟨h0, h2, h2b, h3, h4, he⟩ | ⟨h0, h2, h2b, h3, h4, he⟩ |
    ⟨h0, h2, h2b, hp, he⟩ | ⟨h0, h2, h2b, hp, line2, ht, he⟩ |
    ⟨h0, h2, h2b, hp, e, ht, he⟩ <;>
  rw [he] at hs <;>
  injection hs with h1 hopt
  · subst h1
    simp [SegRel, seg_process_line, h0, rc, rf, rn, rs]
  · subst h1
    simp [SegRel, seg_process_line, h0, h2, ← rf, h3, rc, rn, rs]
  · subst h1
    simp [SegRel, seg_process_line, h0, h2, ← rf, h3, rc, rn, rs]
  · exact Option.noConfusion hopt
  · subst h1
    simp [SegRel, seg_process_line, h0, h2, h2b, ← rf, ← rn, h3, rc, rs]
  · subst h1
    simp [SegRel, seg_process_line, h0, h2, h2b, ← rf, ← rn, h3, rc, rs]
  · exact Option.noConfusion hopt
  · subst h1
    simp [SegRel, seg_process_line, h0, h2, h2b, rc, rf, rn, rs]
  · simp at hp
  · simp at hp

theorem process_lines_seg {op sep : String} {m : Int} :
    ∀ (ls : List String) (s s1 : SplitState) (t : SegState),
    process_lines op m [] sep s ls = (s1, none) → SegRel s t →
    SegRel s1 (ls.foldl (seg_process_line m) t) := by
  intro ls
  induction ls with
  | nil =>
    intro s s1 t h hrel
    simp only [process_lines] at h
    injection h with h1 _
    subst h1
    simpa using hrel
  | cons l ls ih =>
    intro s s1 t h hrel
    rcases hpl : process_line op m [] sep s l with ⟨s', err⟩
    rw [process_lines, hpl] at h
    cases err with
    | some e => exact absurd h (by simp)
    | none =>
      have hstep := process_line_seg hpl hrel
      simpa using ih s' s1 (seg_process_line m t l) (by simpa using h) hstep

theorem recover_lines_append (xs ys : List (Bool × List String)) :
    recover_lines (xs ++ ys) = recover_lines xs ++ recover_lines ys := by
  simp [recover_lines]

theorem drop_one_append {α : Type} {xs : List α} (h : xs ≠ []) (ys : List α) :
    (xs ++ ys).drop 1 = xs.drop 1 ++ ys := by
  cases xs with
  | nil => exact absurd rfl h
  | cons a tl => simp

theorem recover_lines_single (b : Bool) (seg : List String) :
    recover_lines [(b, seg)] = if b then seg.drop 1 else seg := by
  simp [recover_lines]

/-- Exhaustive case analysis of one step of the segmentation core. -/
theorem seg_process_line_spec (m : Int) (t : SegState) (l : String) :
    (py_strip l = "" ∧ seg_process_line m t l = t) ∨
    (py_strip l ≠ "" ∧ py_startswith ">>" (py_strip l) = true ∧
      t.first_level_id ≠ "" ∧
      seg_process_line m t l =
        { segs := t.segs ++ [(t.cur_seeded, t.contents)],
          contents := [py_strip l], cur_seeded := false,
          first_level_id := py_strip l, second_level_item_num := 0 }) ∨
    (py_strip l ≠ "" ∧ py_startswith ">>" (py_strip l) = true ∧
      t.first_level_id = "" ∧
      seg_process_line m t l =
        { t with first_level_id := py_strip l,
                 contents := t.contents ++ [py_strip l] }) ∨
    (py_strip l ≠ "" ∧ py_startswith ">>" (py_strip l) = false ∧
      py_startswith ">" (py_strip l) = true ∧
      m ≤ (t.second_level_item_num : Int) ∧
      seg_process_line m t l =
        { segs := t.segs ++ [(t.cur_seeded, t.contents)],
          contents := [t.first_level_id, py_strip l], cur_seeded := true,
          first_level_id := t.first_level_id, second_level_item_num := 1 }) ∨
    (py_strip l ≠ "" ∧ py_startswith ">>" (py_strip l) = false ∧
      py_startswith ">" (py_strip l) = true ∧
      ¬ m ≤ (t.second_level_item_num : Int) ∧
      seg_process_line m t l =
        { t with second_level_item_num := t.second_level_item_num + 1,
                 contents := t.contents ++ [py_strip l] }) ∨
    (py_strip l ≠ "" ∧ py_startswith ">>" (py_strip l) = false ∧
      py_startswith ">" (py_strip l) = false ∧
      seg_process_line m t l =
        { t with contents := t.contents ++ [py_strip l] }) := by
  by_cases h0 : py_strip l = ""
  · exact Or.inl ⟨h0, by simp [seg_process_line, h0]⟩
  · by_cases h2 : py_startswith ">>" (py_strip l) = true
    · by_cases h3 : t.first_level_id = ""
      · exact Or.inr (Or.inr (Or.inl ⟨h0, h2, h3,
          by simp [seg_process_line, h0, h2, h3]⟩))
      · exact Or.inr (Or.inl ⟨h0, h2, h3,
          by simp [seg_process_line, h0, h2, h3]⟩)
    · rw [Bool.not_eq_true] at h2
      by_cases h2b : py_startswith ">" (py_strip l) = true
      · by_cases h3 : m ≤ (t.second_level_item_num : Int)
        · exact Or.inr (Or.inr (Or.inr (Or.inl ⟨h0, h2, h2b, h3,
            by simp [seg_process_line, h0, h2, h2b, h3]⟩)))
        · exact Or.inr (Or.inr (Or.inr (Or.inr (Or.inl ⟨h0, h2, h2b, h3,
            by simp [seg_process_line, h0, h2, h2b, h3]⟩))))
      · rw [Bool.not_eq_true] at h2b
        exact Or.inr (Or.inr (Or.inr (Or.inr (Or.inr ⟨h0, h2, h2b,
          by simp [seg_process_line, h0, h2, h2b]⟩))))

theorem seg_process_line_recover {m : Int} {t : SegState} {l : String}
    (hinv : t.cur_seeded = true → t.contents ≠ []) :
    seg_recover_state (seg_process_line m t l) =
      seg_recover_state t ++ clean_lines [l] ∧
    ((seg_process_line m t l).cur_seeded = true →
      (seg_process_line m t l).contents ≠ []) := by
  have happ : (if t.cur_seeded = true then (t.contents ++ [py_strip l]).tail
        else t.contents ++ [py_strip l]) =
      (if t.cur_seeded = true then t.contents.tail else t.contents) ++
        [py_strip l] := by
    cases hsd : t.cur_seeded with
    | false => simp
    | true =>
        cases hc : t.contents with
        | nil => exact absurd hc (hinv hsd)
        | cons a tl => simp
  rcases seg_process_line_spec m t l with
    ⟨h0, he⟩ | ⟨h0, h2, h3, he⟩ | ⟨h0, h2, h3, he⟩ | ⟨h0, h2, h2b, h3, he⟩ |
    ⟨h0, h2, h2b, h3, he⟩ | ⟨h0, h2, h2b, he⟩ <;>
  rw [he] <;>
  constructor
  · simp [clean_lines, h0]
  · exact hinv
  · simp [seg_recover_state, recover_lines, clean_lines, h0]
  · simp
  · simp [seg_recover_state, recover_lines, clean_lines, h0, happ]
  · simp
  · simp [seg_recover_state, recover_lines, clean_lines, h0]
  · simp
  · simp [seg_recover_state, recover_lines, clean_lines, h0, happ]
  · simp
  · simp [seg_recover_state, recover_lines, clean_lines, h0, happ]
  · simp

theorem seg_fold_recover (m : Int) : ∀ (ls : List String) (t : SegState),
    (t.cur_seeded = true → t.contents ≠ []) →
    seg_recover_state (ls.foldl (seg_process_line m) t) =
      seg_recover_state t ++ clean_lines ls := by
  intro ls
  induction ls with
  | nil => intro t _; simp [clean_lines]
  | cons l ls ih =>
    intro t hinv
    obtain ⟨hrec, hinv'⟩ := seg_process_line_recover (m := m) (l := l) hinv
    have := ih (seg_process_line m t l) hinv'
    rw [List.foldl_cons, this, hrec]
    by_cases h0 : py_strip l = ""
    · simp [clean_lines, h0, clean_lines_cons_blank h0]
    · simp [clean_lines, h0, clean_lines_cons h0]

/-- The pure round trip: dropping the seeded carry-over headers from the
segments of a run reproduces the non-blank stripped input lines. -/
theorem seg_split_recover (m : Int) (input_lines : List String) :
    recover_lines (seg_split m input_lines) = clean_lines input_lines := by
  have h := seg_fold_recover m input_lines
    ⟨[], [], false, "", 0⟩ (by intro h; cases h)
  simpa [seg_split, seg_recover_state, recover_lines] using h

theorem process_line_sim {op : String} {m : Int} {prs : List String}
    {sep : String} {s s1 : SplitState} {l q : String}
    (hs : process_line op m prs sep s l = (s1, none))
    (hq2 : q ≠ s1.current_path) :
    process_line op m prs sep (addFile q s) l = (addFile q s1, none) := by
  rcases process_line_spec op m prs sep s l with
    ⟨h0, he⟩ | ⟨h0, h2, h3, he⟩ | ⟨h0, h2, h3, h4, he⟩ | ⟨h0, h2, h3, h4, he⟩ |
    ⟨h0, h2, h2b, h3, he⟩ | ⟨h0, h2, h2b, h3, h4, he⟩ | ⟨h0, h2, h2b, h3, h4, he⟩ |
    ⟨h0, h2, h2b, hp, he⟩ | ⟨h0, h2, h2b, hp, line2, ht, he⟩ |
    ⟨h0, h2, h2b, hp, e, ht, he⟩ <;>
  rw [he] at hs <;>
  injection hs with h1 hopt
  · subst h1
    exact process_line_blank h0
  · subst h1
    exact process_line_group_first rfl h0 h2 h3
  · subst h1
    have h4' : next_path op (addFile q s) ∉
        (addFile q s).fs ++ [(addFile q s).current_path] := by
      intro hmem
      have hmem2 : next_path op s ∈ q :: (s.fs ++ [s.current_path]) := by
        rw [← List.cons_append]
        exact hmem
      rcases List.mem_cons.mp hmem2 with heq | hmem'
      · exact hq2 heq.symm
      · exact h4 hmem'
    exact process_line_group_flush_ok rfl h0 h2 h3 h4'
  · exact Option.noConfusion hopt
  · subst h1
    exact process_line_item_small rfl h0 h2 h2b h3
  · subst h1
    have h4' : next_path op (addFile q s) ∉
        (addFile q s).fs ++ [(addFile q s).current_path] := by
      intro hmem
      have hmem2 : next_path op s ∈ q :: (s.fs ++ [s.current_path]) := by
        rw [← List.cons_append]
        exact hmem
      rcases List.mem_cons.mp hmem2 with heq | hmem'
      · exact hq2 heq.symm
      · exact h4 hmem'
    exact process_line_item_flush_ok rfl h0 h2 h2b h3 h4'
  · exact Option.noConfusion hopt
  · subst h1
    subst hp
    exact process_line_data_plain rfl h0 h2 h2b
  · subst h1
    exact process_line_data_ok rfl h0 h2 h2b hp ht
  · exact Option.noConfusion hopt

theorem process_lines_sim {op : String} {m : Int} {prs : List String}
    {sep : String} : ∀ (ls : List String) (s s1 : SplitState) (q : String),
    process_lines op m prs sep s ls = (s1, none) →
    q ∉ s1.fs → q ≠ s1.current_path →
    process_lines op m prs sep (addFile q s) ls = (addFile q s1, none) := by
  intro ls
  induction ls with
  | nil =>
    intro s s1 q h _ _
    simp only [process_lines] at h
    injection h with h1 _
    subst h1
    rfl
  | cons l ls ih =>
    intro s s1 q h hq1 hq2
    rcases hpl : process_line op m prs sep s l with ⟨s', err⟩
    rw [process_lines, hpl] at h
    cases err with
    | some e => exact absurd h (by simp)
    | none =>
      have hrest : process_lines op m prs sep s' ls = (s1, none) := by
        simpa using h
      have hq2' : q ≠ s'.current_path := by
        intro hqc
        rcases @process_lines_current op m prs sep ls s' with hmem | hcur
        · rw [hrest] at hmem
          exact hq1 (hqc ▸ hmem)
        · rw [hrest] at hcur
          exact hq2 (hqc.trans hcur)
      have hstep := process_line_sim hpl hq2'
      rw [process_lines, hstep]
      exact ih s' s1 q hrest hq1 hq2

/-- Everything a run of `split` can do: collide on the log path, collide
on the path for sequence number 1, run the loop to completion and then
either collide on the eagerly checked next path or return the counters, or
abort the loop with an exception. -/
theorem split_spec (fs0 input_lines : List String) (op : String) (m : Int)
    (prs : List String) (sep : String) :
    (log_path op ∈ fs0 ∧ split fs0 input_lines op m prs sep =
      ⟨[], fs0, .error (.fileExists (log_path op))⟩) ∨
    (log_path op ∉ fs0 ∧
      outputFileName op (toString (1 : Nat)) ∈ fs0 ++ [log_path op] ∧
      split fs0 input_lines op m prs sep =
        ⟨[], fs0 ++ [log_path op],
         .error (.fileExists (outputFileName op (toString (1 : Nat))))⟩) ∨
    (log_path op ∉ fs0 ∧
      outputFileName op (toString (1 : Nat)) ∉ fs0 ++ [log_path op] ∧
      ∃ s1, process_lines op m prs sep (init_state fs0 op) input_lines =
          (s1, none) ∧
        ((next_path op s1 ∈ s1.fs ++ [s1.current_path] ∧
          split fs0 input_lines op m prs sep =
            ⟨s1.files ++ [(s1.current_path, s1.contents)],
             s1.fs ++ [s1.current_path],
             .error (.fileExists (next_path op s1))⟩) ∨
         (next_path op s1 ∉ s1.fs ++ [s1.current_path] ∧
          split fs0 input_lines op m prs sep =
            ⟨s1.files ++ [(s1.current_path, s1.contents)],
             s1.fs ++ [s1.current_path],
             .ok (s1.total_line_count, s1.total_file_count + 1)⟩))) ∨
    (log_path op ∉ fs0 ∧
      outputFileName op (toString (1 : Nat)) ∉ fs0 ++ [log_path op] ∧
      ∃ s1 e, process_lines op m prs sep (init_state fs0 op) input_lines =
          (s1, some e) ∧
        split fs0 input_lines op m prs sep = ⟨s1.files, s1.fs, .error e⟩) := by
  by_cases hlog : log_path op ∈ fs0
  · refine Or.inl ⟨hlog, ?_⟩
    have hlog' : outputFileName op "log" ∈ fs0 := hlog
    simp [split, get_output_file_path, hlog', log_path]
  · have hlog' : outputFileName op "log" ∉ fs0 := hlog
    by_cases h1p : outputFileName op (toString (1 : Nat)) ∈ fs0 ++ [log_path op]
    · refine Or.inr (Or.inl ⟨hlog, h1p, ?_⟩)
      have h1p' : outputFileName op (toString (1 : Nat)) ∈ fs0 ∨
          outputFileName op (toString (1 : Nat)) = outputFileName op "log" := by
        simpa [log_path] using h1p
      simp [split, split_with_log, get_output_file_path, hlog', log_path]
      rcases h1p' with h | h
      · simp [h]
      · simp [h]
    · have h1p' : outputFileName op (toString (1 : Nat)) ∉ fs0 ∧
          outputFileName op (toString (1 : Nat)) ≠ outputFileName op "log" := by
        constructor
        · intro hc
          exact h1p (List.mem_append.mpr (Or.inl hc))
        · intro hc
          exact h1p (List.mem_append.mpr (Or.inr (by simp [log_path, hc])))
      rcases hpl : process_lines op m prs sep (init_state fs0 op) input_lines
        with ⟨s1, err⟩
      have hsplit : split fs0 input_lines op m prs sep =
          finish_run op (s1, err) := by
        rw [← hpl]
        simp [split, split_with_log, get_output_file_path, hlog', h1p'.1,
          h1p'.2, log_path, init_state]
      cases err with
      | some e =>
        refine Or.inr (Or.inr (Or.inr ⟨hlog, h1p, s1, e, rfl, ?_⟩))
        rw [hsplit]
        rfl
      | none =>
        refine Or.inr (Or.inr (Or.inl ⟨hlog, h1p, s1, rfl, ?_⟩))
        by_cases hnp : next_path op s1 ∈ s1.fs ++ [s1.current_path]
        · refine Or.inl ⟨hnp, ?_⟩
          rw [hsplit]
          simp [finish_run, save_switch_err hnp]
        · refine Or.inr ⟨hnp, ?_⟩
          rw [hsplit]
          simp [finish_run, save_switch_ok hnp]

theorem split_log_mem (fs0 input_lines : List String) (op : String) (m : Int)
    (prs : List String) (sep : String) :
    log_path op ∈ (split fs0 input_lines op m prs sep).fs := by
  have hinit : log_path op ∈ (init_state fs0 op).fs := by
    simp [init_state]
  rcases split_spec fs0 input_lines op m prs sep with
    ⟨hl, hs⟩ | ⟨_, _, hs⟩ | ⟨_, _, s1, hpl, hrest⟩ | ⟨_, _, s1, e, hpl, hs⟩
  · rw [hs]; exact hl
  · rw [hs]; simp
  · have hmem : log_path op ∈ s1.fs := by
      have h := @process_lines_fs_mono op m prs sep input_lines
        (init_state fs0 op) (log_path op) hinit
      rw [hpl] at h
      exact h
    rcases hrest with ⟨_, hs⟩ | ⟨_, hs⟩ <;> rw [hs] <;>
      exact List.mem_append.mpr (Or.inl hmem)
  · have hmem : log_path op ∈ s1.fs := by
      have h := @process_lines_fs_mono op m prs sep input_lines
        (init_state fs0 op) (log_path op) hinit
      rw [hpl] at h
      exact h
    rw [hs]
    exact hmem

theorem process_lines_blank_all {op : String} {m : Int} {prs : List String}
    {sep : String} : ∀ (ls : List String) (s : SplitState),
    (∀ l ∈ ls, py_strip l = "") → process_lines op m prs sep s ls = (s, none) := by
  intro ls
  induction ls with
  | nil => intro s _; rfl
  | cons l ls ih =>
    intro s hb
    rw [process_lines, process_line_blank (hb l (by simp))]
    exact ih s (fun l' hl' => hb l' (by simp [hl']))

/-- The only exception the prefix-removal comprehension itself can raise is
the empty-separator `ValueError`. -/
theorem modified_items_err_shape :
    ∀ (prefs parts : List String) (e : SplitError),
    modified_items_of prefs parts = .error e → e = .emptySeparator := by
  intro prefs
  induction prefs with
  | nil => intro parts e h; simp [modified_items_of] at h
  | cons p ps ih =>
    intro parts e h
    cases parts with
    | nil => simp [modified_items_of] at h
    | cons it its =>
      rw [modified_items_of] at h
      by_cases hsw : py_startswith p it = true
      · rw [if_pos hsw] at h
        by_cases hemp : p = ""
        · rw [if_pos hemp] at h
          injection h with h1
          exact h1.symm
        · rw [if_neg hemp] at h
          cases hmi : modified_items_of ps its with
          | error e' =>
            rw [hmi] at h
            injection h with h1
            exact h1 ▸ ih its e' hmi
          | ok res => rw [hmi] at h; cases h
      · rw [if_neg hsw] at h
        exact ih its e h

/-- When every positional pair passes its `startswith` check (and no
expected prefix is empty), the comprehension keeps every pair and removes
every occurrence of the expected prefix from its item. -/
theorem modified_items_all :
    ∀ (prefs parts : List String), (∀ p ∈ prefs, p ≠ "") →
    (∀ pr ∈ prefs.zip parts, py_startswith pr.1 pr.2 = true) →
    modified_items_of prefs parts =
      .ok ((prefs.zip parts).map (fun pr => remove_pref_occurrences pr.1 pr.2)) := by
  intro prefs
  induction prefs with
  | nil => intro parts _ _; rfl
  | cons p ps ih =>
    intro parts hne hall
    cases parts with
    | nil => rfl
    | cons it its =>
      have hsw : py_startswith p it = true := hall (p, it) (by simp)
      have hemp : ¬ p = "" := hne p (by simp)
      rw [modified_items_of, if_pos hsw, if_neg hemp,
        ih its (fun q hq => hne q (by simp [hq]))
          (fun pr hpr => hall pr (by simp [hpr]))]
      simp

/-- The comprehension never fails when no expected prefix is empty; it
returns at most one value per pair, strictly fewer when a pair fails its
`startswith` check. -/
theorem modified_items_ok_len :
    ∀ (prefs parts : List String), (∀ p ∈ prefs, p ≠ "") →
    ∃ res, modified_items_of prefs parts = .ok res ∧
      res.length ≤ (prefs.zip parts).length ∧
      ((∃ pr ∈ prefs.zip parts, ¬ py_startswith pr.1 pr.2 = true) →
        res.length < (prefs.zip parts).length) := by
  intro prefs
  induction prefs with
  | nil =>
    intro parts _
    exact ⟨[], rfl, by simp, by simp⟩
  | cons p ps ih =>
    intro parts hne
    cases parts with
    | nil => exact ⟨[], rfl, by simp, by simp⟩
    | cons it its =>
      obtain ⟨res, hres, hle, hlt⟩ := ih its (fun q hq => hne q (by simp [hq]))
      by_cases hsw : py_startswith p it = true
      · refine ⟨remove_pref_occurrences p it :: res, ?_, by simpa using hle, ?_⟩
        · rw [modified_items_of, if_pos hsw, if_neg (hne p (by simp)), hres]
        · rintro ⟨pr, hpr, hbad⟩
          rcases List.mem_cons.mp hpr with heq | hmem
          · exact absurd (heq ▸ hsw) hbad
          · simpa using hlt ⟨pr, hmem, hbad⟩
      · refine ⟨res, ?_, ?_, ?_⟩
        · rw [modified_items_of, if_neg hsw, hres]
        · simp only [List.zip_cons_cons, List.length_cons]
          omega
        · intro _
          simp only [List.zip_cons_cons, List.length_cons]
          omega

/-- Which exceptions the line transformer can raise. -/
theorem transform_err_shape {prs : List String} {sep line : String}
    {e : SplitError} (h : transform_data_line prs sep line = .error e) :
    e = .assertionFailed ∨ e = .emptySeparator ∨
      e = .valueError (py_split_whitespace line) prs := by
  unfold transform_data_line at h
  by_cases hlen : (py_split_whitespace line).length = prs.length
  · rw [if_pos hlen] at h
    cases hmi : modified_items_of prs (py_split_whitespace line) with
    | error e' =>
      simp only [hmi] at h
      injection h with h1
      exact Or.inr (Or.inl (h1 ▸ modified_items_err_shape _ _ _ hmi))
    | ok res =>
      simp only [hmi] at h
      by_cases hl2 : res.length = prs.length
      · rw [if_pos hl2] at h
        cases h
      · rw [if_neg hl2] at h
        injection h with h1
        exact Or.inr (Or.inr h1.symm)
  · rw [if_neg hlen] at h
    injection h with h1
    exact Or.inl h1.symm

/-! ## The claims -/

/-- C1: on the input stream `>>G1 / >1 / A B / >2 / C D / >>G2 / >1 / E F`
with no field prefixes, `split` produces exactly the three segments
`[">>G1", ">1", "A B"]`, `[">>G1", ">2", "C D"]`, `[">>G2", ">1", "E F"]`
in that order for `maxItems = 1`, and exactly the two segments
`[">>G1", ">1", "A B", ">2", "C D"]`, `[">>G2", ">1", "E F"]` for
`maxItems = 2`. -/
theorem claim_C1 :
    (split [] [">>G1", ">1", "A B", ">2", "C D", ">>G2", ">1", "E F"]
        "out" 1 [] "\t").files.map Prod.snd =
      [[">>G1", ">1", "A B"], [">>G1", ">2", "C D"], [">>G2", ">1", "E F"]] ∧
    (split [] [">>G1", ">1", "A B", ">2", "C D", ">>G2", ">1", "E F"]
        "out" 2 [] "\t").files.map Prod.snd =
      [[">>G1", ">1", "A B", ">2", "C D"], [">>G2", ">1", "E F"]] :=
  ⟨by decide, by decide⟩

/-- C2: for every input stream and every `maxItems ≥ 1`, with no field
prefixes, a completed run's segments are those of the instrumented
segmentation core, and concatenating those segments in sequence order
while dropping the seeded carry-over group header from the head of each
continuation segment yields exactly the non-blank stripped input lines in
their original order. -/
theorem claim_C2 {fs0 input_lines : List String} {op sep : String} {m : Int}
    {r : Nat × Nat} (hm : 1 ≤ m)
    (hok : (split fs0 input_lines op m [] sep).result = .ok r) :
    (split fs0 input_lines op m [] sep).files.map Prod.snd =
      (seg_split m input_lines).map Prod.snd ∧
    recover_lines (seg_split m input_lines) = clean_lines input_lines := by
  refine ⟨?_, seg_split_recover m input_lines⟩
  rcases split_spec fs0 input_lines op m [] sep with
    ⟨_, hs⟩ | ⟨_, _, hs⟩ | ⟨_, _, s1, hpl, hrest⟩ | ⟨_, _, s1, e, hpl, hs⟩
  · rw [hs] at hok; exact absurd hok (by simp)
  · rw [hs] at hok; exact absurd hok (by simp)
  · rcases hrest with ⟨hnp, hs⟩ | ⟨hnp, hs⟩
    · rw [hs] at hok; exact absurd hok (by simp)
    · rw [hs]
      have hrel : SegRel s1
          (input_lines.foldl (seg_process_line m) ⟨[], [], false, "", 0⟩) :=
        process_lines_seg input_lines (init_state fs0 op) s1
          ⟨[], [], false, "", 0⟩ hpl ⟨rfl, rfl, rfl, rfl⟩
      obtain ⟨rc, rf, rn, rs⟩ := hrel
      simp [seg_split, rs, rc]
  · rw [hs] at hok; exact absurd hok (by simp)

/-- C2 witness at the concrete scenario of C1. -/
theorem claim_C2_witness :
    (1 : Int) ≤ 1 ∧
    (split [] [">>G1", ">1", "A B", ">2", "C D", ">>G2", ">1", "E F"]
        "out" 1 [] "\t").result = .ok (8, 3) ∧
    ((split [] [">>G1", ">1", "A B", ">2", "C D", ">>G2", ">1", "E F"]
        "out" 1 [] "\t").files.map Prod.snd =
      (seg_split 1 [">>G1", ">1", "A B", ">2", "C D", ">>G2", ">1", "E F"]).map
        Prod.snd ∧
    recover_lines (seg_split 1
        [">>G1", ">1", "A B", ">2", "C D", ">>G2", ">1", "E F"]) =
      clean_lines [">>G1", ">1", "A B", ">2", "C D", ">>G2", ">1", "E F"]) :=
  ⟨by decide, by decide,
    @claim_C2 [] [">>G1", ">1", "A B", ">2", "C D", ">>G2", ">1", "E F"]
      "out" "\t" 1 (8, 3) (by decide) (by decide)⟩

/-- C3 is false as stated: with field prefixes configured, the transformer
can rewrite a data line into a line that starts with `>` but not `>>`;
here `maxItems = 1` but the single produced segment contains two such
lines. -/
theorem claim_C3_cx :
    (1 : Int) ≤ 1 ∧
    (split [] [">>G", "x>1", "x>2"] "out" 1 ["x"] "\t").files.map Prod.snd =
      [[">>G", ">1", ">2"]] ∧
    ¬ (count_item_markers [">>G", ">1", ">2"] : Int) ≤ 1 :=
  ⟨by decide, by decide, by decide⟩

/-- C3 (amended): for every input stream and every `maxItems ≥ 1`, with no
field prefixes configured, every output segment produced by `split`
contains at most `maxItems` item-marker lines (lines starting with `>` but
not `>>`). -/
theorem claim_C3_amended {fs0 input_lines : List String} {op sep : String}
    {m : Int} (hm : 1 ≤ m) :
    ∀ pr ∈ (split fs0 input_lines op m [] sep).files,
      (count_item_markers pr.2 : Int) ≤ m := by
  intro pr hpr
  have hinit : BoundInv m (init_state fs0 op) := by
    refine ⟨by simp [init_state]; omega, by simp [init_state, count_item_markers],
      Or.inl rfl, by simp [init_state]⟩
  rcases split_spec fs0 input_lines op m [] sep with
    ⟨_, hs⟩ | ⟨_, _, hs⟩ | ⟨_, _, s1, hpl, hrest⟩ | ⟨_, _, s1, e, hpl, hs⟩
  · rw [hs] at hpr; cases hpr
  · rw [hs] at hpr; cases hpr
  · have hinv : BoundInv m s1 := by
      have h := @process_lines_bound op sep m hm input_lines
        (init_state fs0 op) hinit
      rw [hpl] at h
      exact h
    obtain ⟨hn, hcnt, _, hsegs⟩ := hinv
    rcases hrest with ⟨_, hs⟩ | ⟨_, hs⟩ <;> rw [hs] at hpr <;>
    · rcases List.mem_append.mp hpr with hin | hin
      · exact hsegs pr hin
      · simp only [List.mem_singleton] at hin
        rw [hin]
        simpa [hcnt] using hn
  · have hinv : BoundInv m s1 := by
      have h := @process_lines_bound op sep m hm input_lines
        (init_state fs0 op) hinit
      rw [hpl] at h
      exact h
    rw [hs] at hpr
    exact hinv.2.2.2 pr hpr

/-- C3 amended witness on a small run. -/
theorem claim_C3_amended_witness :
    (1 : Int) ≤ 1 ∧
    ("out_1.txt", [">>G", ">1", "A"]) ∈
      (split [] [">>G", ">1", "A"] "out" 1 [] "\t").files ∧
    (count_item_markers ("out_1.txt", ([">>G", ">1", "A"] : List String)).2 : Int) ≤ 1 :=
  ⟨by decide, by decide,
    @claim_C3_amended [] [">>G", ">1", "A"] "out" "\t" 1 (by decide) _ (by decide)⟩

/-- C4 is false as stated: an input whose item-marker line precedes any
group marker yields a segment that contains an item-marker line but does
not begin with any `>>` group-header line. -/
theorem claim_C4_cx :
    (split [] [">1"] "out" 1 [] "\t").files.map Prod.snd = [[">1"]] ∧
    is_item_marker ">1" = true ∧
    ¬ ∃ hd, ([">1"] : List String).head? = some hd ∧
      py_startswith ">>" hd = true := by
  refine ⟨by decide, by decide, ?_⟩
  rintro ⟨hd, hhd, hss⟩
  injection hhd with h
  rw [← h] at hss
  exact absurd hss (by decide)

/-- C4 (amended): for every input stream whose first non-blank line is a
group marker, every output segment of `split` that contains an item-marker
line or a data-shaped line (one not starting with `>`) begins with a
`>>` group-header line — in particular a continuation segment opened by an
item-count split is pre-seeded with the current group's header. -/
theorem claim_C4_amended {fs0 input_lines : List String} {op sep : String}
    {m : Int} {prs : List String}
    (hwf : ∀ hd, (clean_lines input_lines).head? = some hd →
      py_startswith ">>" hd = true) :
    ∀ pr ∈ (split fs0 input_lines op m prs sep).files,
      (∃ l ∈ pr.2, is_item_marker l = true ∨ py_startswith ">" l = false) →
      ∃ hd, pr.2.head? = some hd ∧ py_startswith ">>" hd = true := by
  intro pr hpr hne
  have hinit : PhaseInv (init_state fs0 op) := Or.inl ⟨rfl, rfl, rfl⟩
  have hph : PhaseInv (process_lines op m prs sep (init_state fs0 op)
      input_lines).1 :=
    process_lines_phase input_lines (init_state fs0 op) hinit (fun _ => hwf)
  have hgood : ∀ pr2 ∈ (split fs0 input_lines op m prs sep).files,
      GoodSeg pr2.2 := by
    intro pr2 hpr2
    rcases split_spec fs0 input_lines op m prs sep with
      ⟨_, hs⟩ | ⟨_, _, hs⟩ | ⟨_, _, s1, hpl, hrest⟩ | ⟨_, _, s1, e, hpl, hs⟩
    · rw [hs] at hpr2; cases hpr2
    · rw [hs] at hpr2; cases hpr2
    · rw [hpl] at hph
      rcases hrest with ⟨_, hs⟩ | ⟨_, hs⟩ <;> rw [hs] at hpr2 <;>
      · rcases List.mem_append.mp hpr2 with hin | hin
        · rcases hph with ⟨_, _, hf⟩ | ⟨_, _, hgf⟩
          · rw [hf] at hin; cases hin
          · exact hgf pr2 hin
        · simp only [List.mem_singleton] at hin
          rw [hin]
          rcases hph with ⟨_, hc, _⟩ | ⟨hg, hhd, _⟩
          · intro hd hhd
            rw [hc] at hhd
            cases hhd
          · intro hd hhd'
            rw [hhd] at hhd'
            injection hhd' with h
            rw [← h]
            exact hg
    · rw [hpl] at hph
      rw [hs] at hpr2
      rcases hph with ⟨_, _, hf⟩ | ⟨_, _, hgf⟩
      · rw [hf] at hpr2; cases hpr2
      · exact hgf pr2 hpr2
  obtain ⟨l, hl, _⟩ := hne
  cases hseg : pr.2 with
  | nil => rw [hseg] at hl; cases hl
  | cons hd tl =>
    refine ⟨hd, rfl, ?_⟩
    exact hgood pr hpr hd (by simp [hseg])

/-- C4 amended witness on a small run. -/
theorem claim_C4_amended_witness :
    ("out_1.txt", [">>G", ">1"]) ∈
      (split [] [">>G", ">1"] "out" 1 [] "\t").files ∧
    ∃ hd, (("out_1.txt", ([">>G", ">1"] : List String)).2.head? = some hd ∧
      py_startswith ">>" hd = true) :=
  ⟨by decide,
    @claim_C4_amended [] [">>G", ">1"] "out" "\t" 1 []
      (fun hd hhd => by
        rw [show (clean_lines [">>G", ">1"]).head? = some ">>G" from by decide]
          at hhd
        injection hhd with h
        rw [← h]
        decide)
      _ (by decide) ⟨">1", by decide, Or.inl (by decide)⟩⟩

/-- C5: no run of `split` ever writes to a path that already existed in
the initial file system, and running `split` again with the same output
path stem, on whatever file system the first run left behind, always
aborts immediately with `FileExistsError` on the log path, writing
nothing. -/
theorem claim_C5 (fs0 input_lines : List String) (op : String) (m : Int)
    (prs : List String) (sep : String) :
    (∀ pr ∈ (split fs0 input_lines op m prs sep).files, pr.1 ∉ fs0) ∧
    ∀ (input_lines2 : List String) (m2 : Int) (prs2 : List String)
      (sep2 : String),
      split (split fs0 input_lines op m prs sep).fs input_lines2 op m2 prs2
          sep2 =
        ⟨[], (split fs0 input_lines op m prs sep).fs,
         .error (.fileExists (log_path op))⟩ := by
  constructor
  · intro pr hpr
    rcases split_spec fs0 input_lines op m prs sep with
      ⟨_, hs⟩ | ⟨_, _, hs⟩ | ⟨hlog, h1p, s1, hpl, hrest⟩ |
      ⟨hlog, h1p, s1, e, hpl, hs⟩
    · rw [hs] at hpr; cases hpr
    · rw [hs] at hpr; cases hpr
    · have hinit : NoClobber fs0 (init_state fs0 op) := by
        refine ⟨by simp [init_state], ?_,
          fun a ha => List.mem_append.mpr (Or.inl ha)⟩
        intro hc
        exact h1p (List.mem_append.mpr (Or.inl hc))
      have hnc : NoClobber fs0 s1 := by
        have h := @process_lines_no_clobber fs0 op m prs sep input_lines
          (init_state fs0 op) hinit
        rw [hpl] at h
        exact h
      obtain ⟨hf, hc, _⟩ := hnc
      rcases hrest with ⟨_, hs⟩ | ⟨_, hs⟩ <;> rw [hs] at hpr <;>
      · rcases List.mem_append.mp hpr with hin | hin
        · exact hf pr hin
        · simp only [List.mem_singleton] at hin
          rw [hin]
          exact hc
    · have hinit : NoClobber fs0 (init_state fs0 op) := by
        refine ⟨by simp [init_state], ?_,
          fun a ha => List.mem_append.mpr (Or.inl ha)⟩
        intro hc
        exact h1p (List.mem_append.mpr (Or.inl hc))
      have hnc : NoClobber fs0 s1 := by
        have h := @process_lines_no_clobber fs0 op m prs sep input_lines
          (init_state fs0 op) hinit
        rw [hpl] at h
        exact h
      rw [hs] at hpr
      exact hnc.1 pr hpr
  · intro input_lines2 m2 prs2 sep2
    have hmem := split_log_mem fs0 input_lines op m prs sep
    rcases split_spec (split fs0 input_lines op m prs sep).fs input_lines2 op
        m2 prs2 sep2 with
      ⟨_, hs⟩ | ⟨hnl, _, _⟩ | ⟨hnl, _, _, _, _⟩ | ⟨hnl, _, _, _, _, _⟩
    · exact hs
    · exact absurd hmem hnl
    · exact absurd hmem hnl
    · exact absurd hmem hnl

/-- C5 witness on a small run. -/
theorem claim_C5_witness :
    ("out_1.txt", [">>G"]) ∈ (split ["keep.txt"] [">>G"] "out" 1 [] "\t").files ∧
    ("out_1.txt", ([">>G"] : List String)).1 ∉ ["keep.txt"] ∧
    split (split ["keep.txt"] [">>G"] "out" 1 [] "\t").fs [">>H"] "out" 2 [] "," =
      ⟨[], (split ["keep.txt"] [">>G"] "out" 1 [] "\t").fs,
       .error (.fileExists (log_path "out"))⟩ :=
  ⟨by decide,
   (claim_C5 ["keep.txt"] [">>G"] "out" 1 [] "\t").1 _ (by decide),
   (claim_C5 ["keep.txt"] [">>G"] "out" 1 [] "\t").2 [">>H"] 2 [] ","⟩

/-- C6 is false as stated: the transformer does not strip exactly one
leading occurrence of the expected prefix; on `"id:id:7 val:9"` with
prefixes `["id:", "val:"]` and separator `"-"` it deletes every
occurrence of `"id:"` and returns `"7-9"`, not `"id:7-9"`. -/
theorem claim_C6_cx :
    transform_data_line ["id:", "val:"] "-" "id:id:7 val:9" = .ok "7-9" ∧
    ("7-9" : String) ≠ "id:7-9" :=
  ⟨by decide, by decide⟩

/-- C6 (amended): for every data line, non-empty list of non-empty
expected prefixes, and separator: if the line whitespace-splits into
exactly `k` parts and every part starts with its positional prefix, the
transformer returns the parts with every occurrence of their prefix
substring removed, joined by the separator; a wrong part count fails with
the bare assertion error, and a failed prefix check fails with the
`ValueError` carrying the observed parts and the prefixes. -/
theorem claim_C6_amended (item_prefs : List String) (sep line : String)
    (hk : 0 < item_prefs.length) (hne : ∀ p ∈ item_prefs, p ≠ "") :
    ((py_split_whitespace line).length = item_prefs.length →
      ((∀ pr ∈ item_prefs.zip (py_split_whitespace line),
          py_startswith pr.1 pr.2 = true) →
        transform_data_line item_prefs sep line =
          .ok (String.intercalate sep
            ((item_prefs.zip (py_split_whitespace line)).map
              (fun pr => remove_pref_occurrences pr.1 pr.2)))) ∧
      ((∃ pr ∈ item_prefs.zip (py_split_whitespace line),
          ¬ py_startswith pr.1 pr.2 = true) →
        transform_data_line item_prefs sep line =
          .error (.valueError (py_split_whitespace line) item_prefs))) ∧
    ((py_split_whitespace line).length ≠ item_prefs.length →
      transform_data_line item_prefs sep line = .error .assertionFailed) := by
  constructor
  · intro hlen
    have hziplen : (item_prefs.zip (py_split_whitespace line)).length =
        item_prefs.length := by
      simp [List.length_zip, hlen]
    constructor
    · intro hall
      have hmi := modified_items_all item_prefs (py_split_whitespace line)
        hne hall
      rw [transform_data_line]
      rw [if_pos hlen]
      simp only [hmi]
      rw [if_pos (by simp [hziplen])]
    · rintro ⟨pr, hpr, hbad⟩
      obtain ⟨res, hres, hle, hlt⟩ :=
        modified_items_ok_len item_prefs (py_split_whitespace line) hne
      have hstrict := hlt ⟨pr, hpr, hbad⟩
      rw [transform_data_line]
      rw [if_pos hlen]
      simp only [hres]
      rw [if_neg (by omega)]
  · intro hlen
    rw [transform_data_line, if_neg hlen]

/-- C6 amended witness at the concrete scenario. -/
theorem claim_C6_amended_witness :
    0 < (["id:", "val:"] : List String).length ∧
    transform_data_line ["id:", "val:"] "-" "id:7 val:9" =
      .ok (String.intercalate "-"
        (((["id:", "val:"] : List String).zip
            (py_split_whitespace "id:7 val:9")).map
          (fun pr => remove_pref_occurrences pr.1 pr.2))) ∧
    transform_data_line ["id:", "val:"] "-" "id:7 val:9" = .ok "7-9" ∧
    transform_data_line ["id:", "val:"] "-" "id:7 9" =
      .error (.valueError ["id:7", "9"] ["id:", "val:"]) :=
  ⟨by decide,
   ((claim_C6_amended ["id:", "val:"] "-" "id:7 val:9" (by decide)
      (by decide)).1 (by decide)).1 (by decide),
   by decide,
   ((claim_C6_amended ["id:", "val:"] "-" "id:7 9" (by decide)
      (by decide)).1 (by decide)).2 ⟨("val:", "9"), by decide, by decide⟩⟩

/-- C7 is false as stated: a data line with the wrong field count fails
with the bare `AssertionError`, which carries neither the offending line
nor the expected-prefix list. -/
theorem claim_C7_cx :
    (split [] [">>G", "A B"] "out" 5 ["x:"] "\t").result =
      .error .assertionFailed ∧
    ∀ obs exp, SplitError.assertionFailed ≠ .valueError obs exp :=
  ⟨by decide, fun _ _ h => SplitError.noConfusion h⟩

/-- C7 (amended): when a data line fails field validation, the run fails
with the bare assertion error (wrong part count), the empty-separator
error, or the `ValueError` carrying the whitespace-split parts and the
expected prefixes — and the state is unchanged: nothing of the in-flight
segment is written. -/
theorem claim_C7_amended {op : String} {m : Int} {item_prefs : List String}
    {sep : String} {s s1 : SplitState} {l : String} {e : SplitError}
    (hs : process_line op m item_prefs sep s l = (s1, some e))
    (hnf : ∀ p, e ≠ .fileExists p) :
    s1 = s ∧
    (e = .assertionFailed ∨ e = .emptySeparator ∨
      e = .valueError (py_split_whitespace (py_strip l)) item_prefs) := by
  rcases process_line_spec op m item_prefs sep s l with
    ⟨h0, he⟩ | ⟨h0, h2, h3, he⟩ | ⟨h0, h2, h3, h4, he⟩ | ⟨h0, h2, h3, h4, he⟩ |
    ⟨h0, h2, h2b, h3, he⟩ | ⟨h0, h2, h2b, h3, h4, he⟩ |
    ⟨h0, h2, h2b, h3, h4, he⟩ | ⟨h0, h2, h2b, hp, he⟩ |
    ⟨h0, h2, h2b, hp, line2, ht, he⟩ | ⟨h0, h2, h2b, hp, e', ht, he⟩ <;>
  rw [he] at hs <;>
  injection hs with h1 hopt
  · exact Option.noConfusion hopt
  · exact Option.noConfusion hopt
  · exact Option.noConfusion hopt
  · injection hopt with h2e
    exact absurd h2e.symm (hnf (next_path op s))
  · exact Option.noConfusion hopt
  · exact Option.noConfusion hopt
  · injection hopt with h2e
    exact absurd h2e.symm (hnf (next_path op s))
  · exact Option.noConfusion hopt
  · exact Option.noConfusion hopt
  · injection hopt with h2e
    exact ⟨h1.symm, transform_err_shape (h2e ▸ ht)⟩

/-- C7 amended witness: a prefix-mismatch on one concrete line. -/
theorem claim_C7_amended_witness :
    process_line "out" 5 ["x:"] "\t"
        ⟨["out_log.txt"], [], [">>G"], "out_1.txt", 1, ">>G", 0, 1, 0⟩ "A" =
      (⟨["out_log.txt"], [], [">>G"], "out_1.txt", 1, ">>G", 0, 1, 0⟩,
       some (.valueError ["A"] ["x:"])) ∧
    (∀ p, (SplitError.valueError ["A"] ["x:"]) ≠ .fileExists p) ∧
    ((⟨["out_log.txt"], [], [">>G"], "out_1.txt", 1, ">>G", 0, 1, 0⟩ :
        SplitState) =
      ⟨["out_log.txt"], [], [">>G"], "out_1.txt", 1, ">>G", 0, 1, 0⟩ ∧
     (SplitError.valueError ["A"] ["x:"] = .assertionFailed ∨
      SplitError.valueError ["A"] ["x:"] = .emptySeparator ∨
      SplitError.valueError ["A"] ["x:"] =
        .valueError (py_split_whitespace (py_strip "A")) ["x:"])) :=
  ⟨by decide, fun _ h => SplitError.noConfusion h,
   @claim_C7_amended "out" 5 ["x:"] "\t"
     ⟨["out_log.txt"], [], [">>G"], "out_1.txt", 1, ">>G", 0, 1, 0⟩
     ⟨["out_log.txt"], [], [">>G"], "out_1.txt", 1, ">>G", 0, 1, 0⟩ "A"
     (.valueError ["A"] ["x:"]) (by decide)
     (fun _ h => SplitError.noConfusion h)⟩

/-- C8 is false as stated: `maxItems = 0` is not rejected; the run
processes the input, consumes its one non-blank line, and writes one
output segment. -/
theorem claim_C8_cx :
    split [] [">>G"] "out" 0 [] "\t" =
      ⟨[("out_1.txt", [">>G"])], ["out_log.txt", "out_1.txt"], .ok (1, 1)⟩ :=
  by decide

/-- C8 (amended): `split` performs no configuration validation; with
`maxItems ≤ 0` the stream is processed rather than rejected, and any run
that completes reports every non-blank input line as consumed. -/
theorem claim_C8_amended {fs0 input_lines : List String} {op sep : String}
    {prs : List String} {m : Int} {r : Nat × Nat} (hm : m ≤ 0)
    (hok : (split fs0 input_lines op m prs sep).result = .ok r) :
    r.1 = (clean_lines input_lines).length := by
  rcases split_spec fs0 input_lines op m prs sep with
    ⟨_, hs⟩ | ⟨_, _, hs⟩ | ⟨_, _, s1, hpl, hrest⟩ | ⟨_, _, s1, e, hpl, hs⟩
  · rw [hs] at hok; exact absurd hok (by simp)
  · rw [hs] at hok; exact absurd hok (by simp)
  · rcases hrest with ⟨_, hs⟩ | ⟨_, hs⟩
    · rw [hs] at hok; exact absurd hok (by simp)
    · rw [hs] at hok
      have hokr : (Except.ok (s1.total_line_count, s1.total_file_count + 1) :
          Except SplitError (Nat × Nat)) = Except.ok r := hok
      have hcnt := process_lines_count input_lines (init_state fs0 op) s1 hpl
      injection hokr with h1
      rw [← h1]
      simpa [init_state] using hcnt
  · rw [hs] at hok; exact absurd hok (by simp)

/-- C8 amended witness: `maxItems = 0` on a one-line input. -/
theorem claim_C8_amended_witness :
    (0 : Int) ≤ 0 ∧
    (split [] [">>G"] "out" 0 [] "\t").result = .ok (1, 1) ∧
    ((1, 1) : Nat × Nat).1 = (clean_lines [">>G"]).length :=
  ⟨by decide, by decide,
   @claim_C8_amended [] [">>G"] "out" "\t" [] 0 (1, 1) (by decide) (by decide)⟩

/-- C9 is false as stated: an input with no non-blank lines produces one
output segment (an empty file) and reports one segment written, because
the end-of-stream flush is unconditional. -/
theorem claim_C9_cx :
    split [] ["", "   "] "out" 3 [] "\t" =
      ⟨[("out_1.txt", [])], ["out_log.txt", "out_1.txt"], .ok (0, 1)⟩ :=
  by decide

/-- C9 (amended): on a fresh directory, an input stream with no non-blank
lines produces exactly one output segment containing no lines, and the run
reports zero lines and one segment written. -/
theorem claim_C9_amended {input_lines : List String} {op sep : String}
    {m : Int} {prs : List String} (hb : ∀ l ∈ input_lines, py_strip l = "") :
    split [] input_lines op m prs sep =
      ⟨[(outputFileName op (toString (1 : Nat)), [])],
       [log_path op, outputFileName op (toString (1 : Nat))],
       .ok (0, 1)⟩ := by
  have hpl : process_lines op m prs sep (init_state [] op) input_lines =
      (init_state [] op, none) := process_lines_blank_all input_lines _ hb
  have hne1 : outputFileName op (toString (1 : Nat)) ≠ log_path op :=
    fun hc => absurd (outputFileName_inj hc) (by decide)
  have hne2 : next_path op (init_state [] op) ≠ log_path op := by
    intro hc
    have h : toString ((1 : Nat) + 1) = "log" := outputFileName_inj hc
    exact absurd h (by decide)
  have hne3 : next_path op (init_state [] op) ≠
      outputFileName op (toString (1 : Nat)) := by
    intro hc
    have h : toString ((1 : Nat) + 1) = toString (1 : Nat) :=
      outputFileName_inj hc
    exact absurd h (by decide)
  rcases split_spec [] input_lines op m prs sep with
    ⟨hl, _⟩ | ⟨_, h1p, _⟩ | ⟨_, _, s1, hpl2, hrest⟩ | ⟨_, _, s1, e, hpl2, _⟩
  · cases hl
  · exact absurd (by simpa using h1p) hne1
  · rw [hpl] at hpl2
    injection hpl2 with h1 _
    subst h1
    rcases hrest with ⟨hnp, hs⟩ | ⟨hnp, hs⟩
    · exfalso
      rcases List.mem_append.mp hnp with hin | hin
      · exact hne2 (by simpa [init_state] using hin)
      · exact hne3 (by simpa using hin)
    · rw [hs]
      rfl
  · rw [hpl] at hpl2
    injection hpl2 with _ h2
    exact Option.noConfusion h2

/-- C9 amended witness: two blank lines. -/
theorem claim_C9_amended_witness :
    (∀ l ∈ (["", "  "] : List String), py_strip l = "") ∧
    split [] ["", "  "] "out" 7 [] "\t" =
      ⟨[(outputFileName "out" (toString (1 : Nat)), [])],
       [log_path "out", outputFileName "out" (toString (1 : Nat))],
       .ok (0, 1)⟩ :=
  ⟨by decide,
   @claim_C9_amended ["", "  "] "out" "\t" 7 [] (by decide)⟩

/-- C10: after a successful run that reports N segments written, the same
run on the same input with a pre-existing file named for sequence number
N+1 writes exactly the same N segments and then raises `FileExistsError`
for that path, because every flush — the final one included — eagerly
computes and existence-checks the path for the next sequence number. -/
theorem claim_C10 {fs0 input_lines : List String} {op : String} {m : Int}
    {prs : List String} {sep : String} {r : Nat × Nat}
    (hok : (split fs0 input_lines op m prs sep).result = .ok r) :
    split (outputFileName op (toString (r.2 + 1)) :: fs0) input_lines op m
        prs sep =
      ⟨(split fs0 input_lines op m prs sep).files,
       outputFileName op (toString (r.2 + 1)) ::
         (split fs0 input_lines op m prs sep).fs,
       .error (.fileExists (outputFileName op (toString (r.2 + 1))))⟩ := by
  rcases split_spec fs0 input_lines op m prs sep with
    ⟨_, hs⟩ | ⟨_, _, hs⟩ | ⟨hlog, h1p, s1, hpl, hrest⟩ |
    ⟨_, _, s1, e, hpl, hs⟩
  · rw [hs] at hok; exact absurd hok (by simp)
  · rw [hs] at hok; exact absurd hok (by simp)
  · rcases hrest with ⟨hnp, hs⟩ | ⟨hnp, hs⟩
    · rw [hs] at hok; exact absurd hok (by simp)
    · have hokr : (Except.ok (s1.total_line_count, s1.total_file_count + 1) :
          Except SplitError (Nat × Nat)) = Except.ok r := by
        rw [hs] at hok; exact hok
      have hr : r = (s1.total_line_count, s1.total_file_count + 1) := by
        injection hokr with h1; exact h1.symm
      have hid : IdPath op s1 := by
        have h := @process_lines_id_path op m prs sep input_lines
          (init_state fs0 op) ⟨rfl, rfl⟩
        rw [hpl] at h
        exact h
      have hq : outputFileName op (toString (r.2 + 1)) = next_path op s1 := by
        have h2 : r.2 = s1.total_file_count + 1 := by rw [hr]
        rw [next_path, hid.1, h2]
      have hq1 : outputFileName op (toString (r.2 + 1)) ∉ s1.fs := by
        rw [hq]
        intro hc
        exact hnp (List.mem_append.mpr (Or.inl hc))
      have hq2 : outputFileName op (toString (r.2 + 1)) ≠ s1.current_path := by
        rw [hq]
        intro hc
        exact hnp (List.mem_append.mpr (Or.inr (by simp [hc])))
      have hsim : process_lines op m prs sep
          (addFile (outputFileName op (toString (r.2 + 1)))
            (init_state fs0 op)) input_lines =
          (addFile (outputFileName op (toString (r.2 + 1))) s1, none) :=
        process_lines_sim input_lines (init_state fs0 op) s1 _ hpl hq1 hq2
      have hlogs1 : log_path op ∈ s1.fs := by
        have h := @process_lines_fs_mono op m prs sep input_lines
          (init_state fs0 op) (log_path op) (by simp [init_state])
        rw [hpl] at h
        exact h
      have hqlog : outputFileName op (toString (r.2 + 1)) ≠ log_path op :=
        fun hc => hq1 (hc ▸ hlogs1)
      have hcur1 : outputFileName op (toString (1 : Nat)) ∈ s1.fs ∨
          outputFileName op (toString (1 : Nat)) = s1.current_path := by
        have h := @process_lines_current op m prs sep input_lines
          (init_state fs0 op)
        rw [hpl] at h
        exact h
      have hqp1 : outputFileName op (toString (r.2 + 1)) ≠
          outputFileName op (toString (1 : Nat)) := by
        intro hc
        rcases hcur1 with hin | hcu
        · exact hq1 (hc ▸ hin)
        · exact hq2 (hc.trans hcu)
      rcases split_spec (outputFileName op (toString (r.2 + 1)) :: fs0)
          input_lines op m prs sep with
        ⟨hl2, _⟩ | ⟨_, h1p2, _⟩ | ⟨_, _, s2, hpl2, hrest2⟩ |
        ⟨_, _, s2, e2, hpl2, _⟩
      · exfalso
        rcases List.mem_cons.mp hl2 with hceq | hmem
        · exact hqlog hceq.symm
        · exact hlog hmem
      · exfalso
        have hmem2 : outputFileName op (toString (1 : Nat)) ∈
            outputFileName op (toString (r.2 + 1)) ::
              (fs0 ++ [log_path op]) := by
          rw [← List.cons_append]
          exact h1p2
        rcases List.mem_cons.mp hmem2 with hceq | hmem
        · exact hqp1 hceq.symm
        · exact h1p hmem
      · have hpl2' : process_lines op m prs sep
            (addFile (outputFileName op (toString (r.2 + 1)))
              (init_state fs0 op)) input_lines = (s2, none) := hpl2
        have heq := hsim.symm.trans hpl2'
        injection heq with h1 _
        have hs2eq : s2 = addFile (outputFileName op (toString (r.2 + 1))) s1 :=
          h1.symm
        subst hs2eq
        rcases hrest2 with ⟨hnp2, hs2⟩ | ⟨hnp2, hs2⟩
        · rw [hs2, hs]
          have hnpa : next_path op
              (addFile (outputFileName op (toString (r.2 + 1))) s1) =
              outputFileName op (toString (r.2 + 1)) := hq.symm
          rw [hnpa]
          rfl
        · exfalso
          apply hnp2
          have hnpa : next_path op
              (addFile (outputFileName op (toString (r.2 + 1))) s1) =
              outputFileName op (toString (r.2 + 1)) := hq.symm
          rw [hnpa]
          exact List.mem_append.mpr (Or.inl (List.mem_cons_self _ _))
      · exfalso
        have hpl2' : process_lines op m prs sep
            (addFile (outputFileName op (toString (r.2 + 1)))
              (init_state fs0 op)) input_lines = (s2, some e2) := hpl2
        have heq := hsim.symm.trans hpl2'
        injection heq with _ h2
        exact Option.noConfusion h2
  · rw [hs] at hok; exact absurd hok (by simp)

/-- C10 witness on a one-segment run. -/
theorem claim_C10_witness :
    (split [] [">>G"] "out" 1 [] "\t").result = .ok (1, 1) ∧
    split (outputFileName "out" (toString (((1, 1) : Nat × Nat).2 + 1)) :: [])
        [">>G"] "out" 1 [] "\t" =
      ⟨(split [] [">>G"] "out" 1 [] "\t").files,
       outputFileName "out" (toString (((1, 1) : Nat × Nat).2 + 1)) ::
         (split [] [">>G"] "out" 1 [] "\t").fs,
       .error (.fileExists
         (outputFileName "out" (toString (((1, 1) : Nat × Nat).2 + 1))))⟩ :=
  ⟨by decide,
   @claim_C10 [] [">>G"] "out" 1 [] "\t" (1, 1) (by decide)⟩
